import Mathlib

/-!
Envoy: gRPC subscription multiplexer, server utilities and CEL formatter.

A shallow embedding of

* `source/extensions/config_subscription/grpc/grpc_mux_impl.h`
  (`GrpcMuxImpl`, `GrpcMuxImpl::GrpcMuxWatchImpl`, `GrpcMuxImpl::ApiState`),
* `source/server/utils.cc` (`assertExclusiveLogFormatMethod`),
* `source/extensions/formatter/cel/cel.cc` (`CELFormatter::format`,
  `CELFormatter::formatValue`),

followed by the properties proved about them.

Conventions of the embedding.

* A `std::string` is a `String`; `std::string::operator<` (lexicographic) is the
  lexicographic order of the character lists, which is the order `<` of `String`.
* A `std::set<std::string>` is the list of its elements in iteration order, built by
  `StdSet.insert`.
* An `absl::flat_hash_set<std::string>` argument is the list of its elements in
  iteration order (any order).
* A `GrpcMuxWatchImpl*` is a `WatchId`; the objects that are alive are kept in
  `GrpcMuxImpl.watch_objs_`.
* A protobuf `map<string, string>` is the list of its entries in ascending key
  order, built by `ProtoMap.insert`; `ProtoMap.find` reads it.
* `uint32_t` arithmetic is arithmetic of `Nat` modulo `2 ^ 32`.
-/

namespace Envoy

/-! ## Ordered string sets -/

namespace StdSet

/-- The `std::set<std::string>::insert` operation on the ascending list of elements:
the key is put at its place in the order, and a key that is already present
leaves the set as it is. -/
def insert (x : String) : List String → List String
  | [] => [x]
  | y :: ys =>
    if x.data < y.data then x :: y :: ys
    else if y.data < x.data then y :: insert x ys
    else y :: ys

end StdSet

/-! ## String maps -/

namespace ProtoMap

/-- The insertion of an entry into a protobuf `map<string, string>`, on the list of
entries in ascending key order: the entry is put at the place of its key, and a
key that is already present keeps the value it has. -/
def insert (key value : String) : List (String × String) → List (String × String)
  | [] => [(key, value)]
  | entry :: m =>
    if key.data < entry.1.data then (key, value) :: entry :: m
    else if entry.1.data < key.data then entry :: insert key value m
    else entry :: m

/-- The value of a key in a map, if the key is present. -/
def find (key : String) : List (String × String) → Option String
  | [] => none
  | entry :: m => if key = entry.1 then some entry.2 else find key m

/-- The map with the given entries (in ascending key order); of two entries with the
same key the later one counts. -/
def ofList (entries : List (String × String)) : List (String × String) :=
  entries.foldr (fun entry m => insert entry.1 entry.2 m) []

end ProtoMap

namespace Config

/-! ## Federation URN names -/

/-- The message `xds.core.v3.ContextParams`: a map from parameter key to value. -/
abbrev ContextParams := List (String × String)

/-- The message `xds.core.v3.ResourceName`. -/
structure ResourceName where
  id : String
  authority : String
  resource_type : String
  context : ContextParams
deriving DecidableEq, Repr

/-- The options `XdsResourceIdentifier::EncodeOptions`. -/
structure EncodeOptions where
  sort_context_params_ : Bool := false
deriving DecidableEq, Repr

/-- The functions of `XdsResourceIdentifier` called by `updateResources`. Their
bodies are in `source/common/config/xds_resource.cc`, so they are parameters of
the embedding. -/
structure XdsResourceIdentifier where
  hasXdsTpScheme : String → Bool
  decodeUrn : String → ResourceName
  encodeUrn : ResourceName → EncodeOptions → String

namespace XdsContextParams

/-- Modelled from the spec: `XdsContextParams::encodeResource`, whose body is in
`source/common/config/xds_context_params.cc`. By §4.4 the node context
parameters are merged into the empty slots only and never override a key that
the resource name already carries. The two last arguments of the call
(client features, extra resource parameters) are empty at the call site. -/
def encodeResource (node_context_params resource_context_params : ContextParams) :
    ContextParams :=
  node_context_params.foldl (fun m entry => ProtoMap.insert entry.1 entry.2 m)
    (ProtoMap.ofList resource_context_params)

end XdsContextParams

/-- The fields of `SubscriptionOptions` read by the watch. -/
structure SubscriptionOptions where
  add_xdstp_node_context_params_ : Bool := false
deriving DecidableEq, Repr

/-! ## Data model of the multiplexer -/

/-- The address of a `GrpcMuxWatchImpl` object. -/
abbrev WatchId := Nat

/-- The fields of `envoy::service::discovery::v3::DiscoveryRequest` kept in
`ApiState::request_`. -/
structure DiscoveryRequest where
  version_info : String := ""
  resource_names : List String := []
  type_url : String := ""
  response_nonce : String := ""
deriving DecidableEq, Repr

/-- The struct `GrpcMuxImpl::ApiState` (the `TtlManager` member is an external
collaborator and is left out). -/
structure ApiState where
  watches_ : List WatchId := []
  request_ : DiscoveryRequest := {}
  pauses_ : Nat := 0
  pending_ : Bool := false
  subscribed_ : Bool := false
  must_send_node_ : Bool := false
  control_plane_identifier_ : String := ""
  previously_fetched_data_ : Bool := false
deriving DecidableEq, Repr

namespace ApiState

/-- The state made by the constructor `ApiState(dispatcher, callback)`: every member
has its default member initializer. -/
def new : ApiState := {}

/-- The method `ApiState::paused`. -/
def paused (a : ApiState) : Bool := decide (a.pauses_ > 0)

end ApiState

/-- The data members of `GrpcMuxImpl::GrpcMuxWatchImpl`. The references
`callbacks_` and `resource_decoder_` are opaque handles; `parent_`,
`local_info_` and `watches_` refer to the owning `GrpcMuxImpl` and are read from
it; `iter_` points at the list node that holds this watch. -/
structure GrpcMuxWatchImpl where
  resources_ : List String
  callbacks_ : Nat
  resource_decoder_ : Nat
  type_url_ : String
  subscription_options_ : SubscriptionOptions
deriving DecidableEq, Repr

/-- The part of the interface `DecodedResource` read by the multiplexer:
`hasResource()`, which tells whether the entry carries a payload, and
`version()`. -/
structure DecodedResource where
  hasResource : Bool
  version : String
deriving DecidableEq, Repr

/-- One call of `GrpcMuxImpl::queueDiscoveryRequest`: the type URL passed, and the
registry of that type as the call finds it (each watch with its stored names). -/
structure QueueCall where
  type_url : String
  watches : List (WatchId × List String)
deriving DecidableEq, Repr

/-- The state of a `GrpcMuxImpl` together with the watch objects alive on it.
`api_state_` is the map from type URL to `ApiState`; `watch_objs_` holds the
live `GrpcMuxWatchImpl` objects by address and `next_watch_` is the next
address handed out; `node_context_` is `local_info_.contextProvider().nodeContext()`;
`queue_calls_` is the sequence of calls of `queueDiscoveryRequest` made so far
and `request_queue_` the queue of type URL tokens. -/
structure GrpcMuxImpl where
  api_state_ : String → Option ApiState
  watch_objs_ : WatchId → Option GrpcMuxWatchImpl
  next_watch_ : WatchId
  node_context_ : ContextParams
  queue_calls_ : List QueueCall
  request_queue_ : List String

namespace GrpcMuxImpl

/-- A multiplexer on which nothing has happened yet. -/
def new (node_context : ContextParams) : GrpcMuxImpl :=
  { api_state_ := fun _ => none
    watch_objs_ := fun _ => none
    next_watch_ := 0
    node_context_ := node_context
    queue_calls_ := []
    request_queue_ := [] }

/-- Modelled from the spec: `GrpcMuxImpl::apiStateFor`, declared in the header as
the helper "for looking up and potentially allocating a new ApiState"; by §3
an `ApiState` is created lazily on first reference and never destroyed. -/
def apiStateFor (type_url : String) (s : GrpcMuxImpl) : ApiState × GrpcMuxImpl :=
  match s.api_state_ type_url with
  | some a => (a, s)
  | none =>
    (ApiState.new,
      { s with api_state_ := Function.update s.api_state_ type_url (some ApiState.new) })

/-- Write through the reference returned by `apiStateFor`. -/
def setApiState (type_url : String) (a : ApiState) (s : GrpcMuxImpl) : GrpcMuxImpl :=
  { s with api_state_ := Function.update s.api_state_ type_url (some a) }

/-- The list `apiStateFor(type_url).watches_` as it stands (empty while the
`ApiState` is not allocated). -/
def watchesOf (s : GrpcMuxImpl) (type_url : String) : List WatchId :=
  match s.api_state_ type_url with
  | some a => a.watches_
  | none => []

/-- The set `resources_` of the watch at address `w` (empty for no object). -/
def storedNames (s : GrpcMuxImpl) (w : WatchId) : List String :=
  match s.watch_objs_ w with
  | some obj => obj.resources_
  | none => []

/-- A change of the list behind the reference `watches_` of a watch of type
`type_url`, which is `parent.apiStateFor(type_url).watches_`. -/
def modifyWatches (type_url : String) (f : List WatchId → List WatchId)
    (s : GrpcMuxImpl) : GrpcMuxImpl :=
  let r := s.apiStateFor type_url
  r.2.setApiState type_url { r.1 with watches_ := f r.1.watches_ }

/-- The registry of a type as a request built now would read it: the watches in
list order, each with its stored names. -/
def registrySnapshot (s : GrpcMuxImpl) (type_url : String) : List (WatchId × List String) :=
  (s.watchesOf type_url).map (fun w => (w, s.storedNames w))

/-- The resource names a request for `type_url` is built from: the stored names of
the watches of the registry, in registry order. -/
def requestResources (s : GrpcMuxImpl) (type_url : String) : List String :=
  (s.watchesOf type_url).flatMap (fun w => s.storedNames w)

/-- Modelled from the spec: `GrpcMuxImpl::queueDiscoveryRequest`, declared in the
header with its body in the `.cc` file. By §4.3 a paused type defers
(`pending_ = true`), otherwise the token is pushed idempotently; the drain that
follows belongs to the stream and the rate limiter and is not part of the
model. Every call is recorded in `queue_calls_`. -/
def queueDiscoveryRequest (queue_item : String) (s : GrpcMuxImpl) : GrpcMuxImpl :=
  let s1 : GrpcMuxImpl :=
    { s with queue_calls_ := s.queue_calls_ ++ [⟨queue_item, s.registrySnapshot queue_item⟩] }
  let r := s1.apiStateFor queue_item
  if r.1.paused then
    r.2.setApiState queue_item { r.1 with pending_ := true }
  else if queue_item ∈ r.2.request_queue_ then r.2
  else { r.2 with request_queue_ := r.2.request_queue_ ++ [queue_item] }

/-- The method `GrpcMuxImpl::isHeartbeatResource`. It returns its result together
with the multiplexer, in which `apiStateFor` may have allocated the state of
the type; for a resource with a payload the `&&` stops before `apiStateFor` is
called. -/
def isHeartbeatResource (type_url : String) (resource : DecodedResource)
    (s : GrpcMuxImpl) : Bool × GrpcMuxImpl :=
  if resource.hasResource then (false, s)
  else
    let r := s.apiStateFor type_url
    (decide (resource.version = r.1.request_.version_info), r.2)

end GrpcMuxImpl

namespace GrpcMuxWatchImpl

/-- The lambda passed to `std::transform` in `updateResources`: the normal form of
one resource name. -/
def normalizeName (xds : XdsResourceIdentifier) (node_context : ContextParams)
    (subscription_options : SubscriptionOptions) (resource_name : String) : String :=
  if xds.hasXdsTpScheme resource_name then
    let xdstp_resource := xds.decodeUrn resource_name
    let xdstp_resource :=
      if subscription_options.add_xdstp_node_context_params_ then
        { xdstp_resource with
          context := XdsContextParams.encodeResource node_context xdstp_resource.context }
      else xdstp_resource
    xds.encodeUrn xdstp_resource { sort_context_params_ := true }
  else resource_name

/-- The set left in `resources_` by `resources_.clear()` followed by the
`std::transform` through `std::inserter`: the normal forms of the names of
`resources`, inserted one after the other into the empty set. -/
def normalizedSet (xds : XdsResourceIdentifier) (node_context : ContextParams)
    (subscription_options : SubscriptionOptions) (resources : List String) : List String :=
  resources.foldl
    (fun acc resource_name =>
      StdSet.insert (normalizeName xds node_context subscription_options resource_name) acc)
    []

/-- The method `GrpcMuxWatchImpl::updateResources` of the watch at `w`. -/
def updateResources (xds : XdsResourceIdentifier) (w : WatchId) (resources : List String)
    (s : GrpcMuxImpl) : GrpcMuxImpl :=
  match s.watch_objs_ w with
  | none => s
  | some obj =>
    let names := normalizedSet xds s.node_context_ obj.subscription_options_ resources
    let s1 : GrpcMuxImpl :=
      { s with watch_objs_ := Function.update s.watch_objs_ w (some { obj with resources_ := names }) }
    -- move this watch to the beginning of the list
    s1.modifyWatches obj.type_url_ (fun l => w :: l)

/-- The constructor `GrpcMuxWatchImpl(resources, callbacks, resource_decoder,
type_url, parent, options, local_info)`: the object is placed at the next
free address, `watches_` is bound to `parent.apiStateFor(type_url).watches_`,
and `updateResources(resources)` runs. -/
def construct (xds : XdsResourceIdentifier) (resources : List String) (callbacks : Nat)
    (resource_decoder : Nat) (type_url : String) (options : SubscriptionOptions)
    (s : GrpcMuxImpl) : GrpcMuxImpl :=
  let w := s.next_watch_
  let obj : GrpcMuxWatchImpl :=
    { resources_ := []
      callbacks_ := callbacks
      resource_decoder_ := resource_decoder
      type_url_ := type_url
      subscription_options_ := options }
  let s1 : GrpcMuxImpl :=
    { (s.apiStateFor type_url).2 with
      watch_objs_ := Function.update s.watch_objs_ w (some obj)
      next_watch_ := w + 1 }
  updateResources xds w resources s1

/-- The destructor of `GrpcMuxWatchImpl`, run when the handle of the watch at `w` is
released; afterwards the object is gone. -/
def destroy (w : WatchId) (s : GrpcMuxImpl) : GrpcMuxImpl :=
  match s.watch_objs_ w with
  | none => s
  | some obj =>
    let s1 := s.modifyWatches obj.type_url_ (fun l => l.erase w)
    let s2 := if obj.resources_ ≠ [] then s1.queueDiscoveryRequest obj.type_url_ else s1
    { s2 with watch_objs_ := Function.update s2.watch_objs_ w none }

/-- The method `GrpcMuxWatchImpl::update` of the watch at `w`. -/
def update (xds : XdsResourceIdentifier) (w : WatchId) (resources : List String)
    (s : GrpcMuxImpl) : GrpcMuxImpl :=
  match s.watch_objs_ w with
  | none => s
  | some obj =>
    let s1 := s.modifyWatches obj.type_url_ (fun l => l.erase w)
    let s2 := if obj.resources_ ≠ [] then s1.queueDiscoveryRequest obj.type_url_ else s1
    let s3 := updateResources xds w resources s2
    s3.queueDiscoveryRequest obj.type_url_

end GrpcMuxWatchImpl

/-! ## Sequences of watch operations -/

/-- What the owner of watches can do: create a watch (the constructor run by
`addWatch`), call `update` on a watch, release the handle of a watch. -/
inductive WatchOp where
  | addWatch (type_url : String) (resources : List String) (callbacks : Nat)
      (resource_decoder : Nat) (options : SubscriptionOptions)
  | update (w : WatchId) (resources : List String)
  | release (w : WatchId)
deriving DecidableEq, Repr

namespace GrpcMuxImpl

/-- The effect of one watch operation. -/
def watchStep (xds : XdsResourceIdentifier) (s : GrpcMuxImpl) : WatchOp → GrpcMuxImpl
  | .addWatch type_url resources callbacks resource_decoder options =>
    GrpcMuxWatchImpl.construct xds resources callbacks resource_decoder type_url options s
  | .update w resources => GrpcMuxWatchImpl.update xds w resources s
  | .release w => GrpcMuxWatchImpl.destroy w s

/-- The effect of a sequence of watch operations, first to last. -/
def runWatchOps (xds : XdsResourceIdentifier) (ops : List WatchOp) (s : GrpcMuxImpl) :
    GrpcMuxImpl :=
  ops.foldl (watchStep xds) s

end GrpcMuxImpl

/-- A live watch as the specification speaks of it: its handle, its type, its
subscription options and the resource collection it was last given. -/
structure LiveWatch where
  id : WatchId
  type_url : String
  options : SubscriptionOptions
  resources : List String
deriving DecidableEq, Repr

/-- The live watches after one more operation, in the words of the specification:
a creation adds a watch (handles are given out in sequence), an update replaces
the collection of the watch, a release ends the watch. The first component
counts the watches created so far. -/
def liveStep (g : Nat × List LiveWatch) : WatchOp → Nat × List LiveWatch
  | .addWatch type_url resources _ _ options =>
    (g.1 + 1, ⟨g.1, type_url, options, resources⟩ :: g.2)
  | .update w resources =>
    (g.1, g.2.map (fun lw => if lw.id = w then { lw with resources := resources } else lw))
  | .release w => (g.1, g.2.filter (fun lw => decide (lw.id ≠ w)))

/-- The watches that are live after a sequence of operations on a new multiplexer. -/
def liveWatches (ops : List WatchOp) : List LiveWatch :=
  (ops.foldl liveStep (0, [])).2

/-! ## Pausing -/

/-- The two events of pausing on one type: a call of `pause` and the release of a
token it returned. -/
inductive PauseOp where
  | pause
  | release
deriving DecidableEq, Repr

namespace GrpcMuxImpl

/-- Modelled from the spec: `GrpcMuxImpl::pause(type_urls)`, whose body is in the
`.cc` file. By §4.2 it increments the counter of each named `ApiState`; the
counter is the `uint32_t` member `pauses_`. -/
def pause (type_urls : List String) (s : GrpcMuxImpl) : GrpcMuxImpl :=
  type_urls.foldl
    (fun s type_url =>
      let r := s.apiStateFor type_url
      r.2.setApiState type_url { r.1 with pauses_ := (r.1.pauses_ + 1) % 2 ^ 32 })
    s

/-- Modelled from the spec: the release of the token returned by `pause(type_urls)`,
for one of its types. By §4.2 it decrements the counter and, on reaching zero,
flushes one pending request if `pending_` was set; by §7 a counter underflow is
a programmer error that aborts (`none`). -/
def resumeOne (s : GrpcMuxImpl) (type_url : String) : Option GrpcMuxImpl :=
  let r := s.apiStateFor type_url
  if r.1.paused then
    let a : ApiState := { r.1 with pauses_ := (r.1.pauses_ + (2 ^ 32 - 1)) % 2 ^ 32 }
    if a.pauses_ = 0 ∧ a.pending_ = true then
      let s1 := (r.2.setApiState type_url a).queueDiscoveryRequest type_url
      let r1 := s1.apiStateFor type_url
      some (r1.2.setApiState type_url { r1.1 with pending_ := false })
    else some (r.2.setApiState type_url a)
  else none

/-- Modelled from the spec: the release of the token returned by `pause(type_urls)`:
`resumeOne` for each type of the token, in order. -/
def resume (type_urls : List String) (s : GrpcMuxImpl) : Option GrpcMuxImpl :=
  type_urls.foldlM resumeOne s

/-- The counter `pauses_` of a type (zero while its `ApiState` is not allocated). -/
def pausesOf (s : GrpcMuxImpl) (type_url : String) : Nat :=
  match s.api_state_ type_url with
  | some a => a.pauses_
  | none => 0

/-- The value of `apiStateFor(type_url).paused()`. -/
def pausedOf (s : GrpcMuxImpl) (type_url : String) : Bool :=
  (s.apiStateFor type_url).1.paused

/-- One pause event on the type `type_url`. -/
def pauseStep (type_url : String) (s : GrpcMuxImpl) : PauseOp → Option GrpcMuxImpl
  | .pause => some (s.pause [type_url])
  | .release => s.resume [type_url]

/-- A sequence of pause events on the type `type_url`, first to last; `none` when
one of them aborts. -/
def runPauseOps (type_url : String) : List PauseOp → GrpcMuxImpl → Option GrpcMuxImpl
  | [], s => some s
  | op :: ops, s =>
    match s.pauseStep type_url op with
    | some s1 => runPauseOps type_url ops s1
    | none => none

/-- Along the sequence every pause increments the counter of `type_url` by one and
every release that goes through decrements it by one. -/
def stepsExact (type_url : String) : List PauseOp → GrpcMuxImpl → Bool
  | [], _ => true
  | op :: ops, s =>
    match s.pauseStep type_url op with
    | some s1 =>
      (match op with
        | .pause => decide (s1.pausesOf type_url = s.pausesOf type_url + 1)
        | .release => decide (s1.pausesOf type_url + 1 = s.pausesOf type_url))
        && stepsExact type_url ops s1
    | none => true

end GrpcMuxImpl

namespace PauseOp

/-- The number of pauses in a sequence of pause events. -/
def pauses (ops : List PauseOp) : Nat := ops.count PauseOp.pause

/-- The number of releases in a sequence of pause events. -/
def releases (ops : List PauseOp) : Nat := ops.count PauseOp.release

/-- No release comes before the pause whose token it releases: with `outstanding`
tokens held at the start, at no point of the sequence have more tokens been
released than handed out. -/
def releasesNeverOutnumber : List PauseOp → Nat → Bool
  | [], _ => true
  | .pause :: ops, outstanding => releasesNeverOutnumber ops (outstanding + 1)
  | .release :: ops, outstanding =>
    decide (0 < outstanding) && releasesNeverOutnumber ops (outstanding - 1)

end PauseOp

end Config

/-! ## Server utilities -/

/-- The exception type `EnvoyException`, with its message. -/
structure EnvoyException where
  what : String
deriving DecidableEq, Repr

namespace Server

/-- The part of the interface `Options` read here: `logFormatSet()`. -/
structure Options where
  logFormatSet : Bool
deriving DecidableEq, Repr

/-- The part of the message `Bootstrap::ApplicationLogConfig` read here:
`has_log_format()`. -/
structure ApplicationLogConfig where
  has_log_format : Bool
deriving DecidableEq, Repr

namespace Utility

/-- The function `assertExclusiveLogFormatMethod`; a thrown exception is an
`Except.error`. -/
def assertExclusiveLogFormatMethod (options : Options)
    (application_log_config : ApplicationLogConfig) : Except EnvoyException Unit :=
  if options.logFormatSet && application_log_config.has_log_format then
    throw ⟨"Only one of ApplicationLogConfig.log_format or CLI option --log-format can be specified."⟩
  else
    pure ()

end Utility
end Server
end Envoy

namespace Envoy
namespace Config

open GrpcMuxImpl GrpcMuxWatchImpl

/-! ## The registry invariant -/

/-- The relation kept between the multiplexer and the live watches of the
specification along every sequence of watch operations. -/
structure WatchInv (xds : XdsResourceIdentifier) (s : GrpcMuxImpl)
    (g : Nat × List LiveWatch) : Prop where
  next_eq : s.next_watch_ = g.1
  ids_lt : ∀ lw ∈ g.2, lw.id < g.1
  ids_nodup : (g.2.map (fun lw => lw.id)).Nodup
  live_obj : ∀ lw ∈ g.2, ∃ obj, s.watch_objs_ lw.id = some obj ∧ obj.type_url_ = lw.type_url ∧
    obj.subscription_options_ = lw.options ∧
    obj.resources_ = normalizedSet xds s.node_context_ lw.options lw.resources
  obj_live : ∀ w obj, s.watch_objs_ w = some obj → ∃ lw ∈ g.2, lw.id = w
  reg_nodup : ∀ t, (s.watchesOf t).Nodup
  reg_mem : ∀ t w, w ∈ s.watchesOf t ↔ ∃ obj, s.watch_objs_ w = some obj ∧ obj.type_url_ = t

end Config
end Envoy

namespace Envoy
namespace Config
namespace XdsUrn

/-! ## The federation URN codec

The functions of `XdsResourceIdentifier` have their bodies in
`source/common/config/xds_resource.cc`. For the properties that depend on what
they compute they are modelled from the spec: a federation URN carries an
authority, a path (resource type and id) and context parameters (§4.4,
glossary); decoding yields that tuple, encoding writes it back with the context
parameters in ascending key order. The name is written
`xdstp://authority/type/id?key=value&key=value`, and a `%` before a character
takes it literally, so that every tuple can be written and read back. -/

/-- The characters that separate the parts of a URN. -/
def isDelimiter (c : Char) : Bool :=
  c = '/' || c = '?' || c = '&' || c = '='

/-- The text of one part as written in a URN: `%` and the separators are preceded
by `%`. -/
def escape : List Char → List Char
  | [] => []
  | c :: cs => if c = '%' ∨ isDelimiter c = true then '%' :: c :: escape cs else c :: escape cs

/-- The parts of a name: the first part, and the parts that follow it. The flag tells
that the previous character was a `%`, so that this one is taken literally. -/
def splitFrom : Bool → List Char → List Char × List (List Char)
  | _, [] => ([], [])
  | true, c :: cs => (c :: (splitFrom false cs).1, (splitFrom false cs).2)
  | false, c :: cs =>
    if c = '%' then splitFrom true cs
    else if isDelimiter c = true then ([], (splitFrom false cs).1 :: (splitFrom false cs).2)
    else (c :: (splitFrom false cs).1, (splitFrom false cs).2)

/-- The parts of a name, cut at the separators that are not preceded by `%`. -/
def fields (name : List Char) : List (List Char) :=
  (splitFrom false name).1 :: (splitFrom false name).2

/-- The context parameters read from the parts after the path: key, value, key,
value, and so on. -/
def pairs : List (List Char) → List (String × String)
  | key :: value :: rest => (⟨key⟩, ⟨value⟩) :: pairs rest
  | _ => []

/-- The context parameters as written in a URN: `?key=value` for the first one,
`&key=value` for the others. -/
def encodeParams (separator : Char) : List (String × String) → List Char
  | [] => []
  | entry :: rest =>
    separator :: (escape entry.1.data ++ '=' :: (escape entry.2.data ++ encodeParams '&' rest))

/-- Modelled from the spec: `XdsResourceIdentifier::hasXdsTpScheme`; a name uses the
federation URN scheme (§4.4) when it starts with `xdstp:`. -/
def hasXdsTpScheme (resource_name : String) : Bool :=
  "xdstp:".data.isPrefixOf resource_name.data

/-- Modelled from the spec: `XdsResourceIdentifier::decodeUrn`; by §4.4 a URN is
decoded into its authority, path and context parameters. The parts of
`xdstp://authority/type/id?key=value&...` are, in order, the scheme, the empty
part between the two slashes, the authority, the resource type, the id, and the
keys and values of the context parameters, which are put into a map. -/
def decodeUrn (resource_name : String) : ResourceName :=
  let parts := fields resource_name.data
  { authority := ⟨parts.getD 2 []⟩
    resource_type := ⟨parts.getD 3 []⟩
    id := ⟨parts.getD 4 []⟩
    context := ProtoMap.ofList (pairs (parts.drop 5)) }

/-- Modelled from the spec: `XdsResourceIdentifier::encodeUrn`; by §4.4 the name is
re-encoded with the context parameters sorted by key, for determinism, when
`sort_context_params_` is set. Without the option the parameters are written
in the order in which the map is iterated, which nothing fixes: it is the
parameter `iteration`. -/
def encodeUrn (iteration : ContextParams → ContextParams) (resource : ResourceName)
    (options : EncodeOptions) : String :=
  ⟨"xdstp://".data ++ (escape resource.authority.data ++ '/' ::
    (escape resource.resource_type.data ++ '/' :: (escape resource.id.data ++
      encodeParams '?'
        (if options.sort_context_params_ then ProtoMap.ofList resource.context
          else iteration resource.context))))⟩

end XdsUrn
end Config

namespace ProtoMap

end ProtoMap
end Envoy

namespace Envoy
namespace Config
namespace Sample

/-! ## A sample codec and node context, for concrete runs -/

/-- A node context with the one parameter `node=n1`. -/
def nodeContext : ContextParams := [("node", "n1")]

/-- A small codec: the scheme test is the prefix `xdstp:`; two URNs are decoded, the
one without context parameters and the one that carries `node=n1`; encoding
writes authority, type and id, and then the parameter `node` when present. -/
def xds : XdsResourceIdentifier where
  hasXdsTpScheme := fun name => "xdstp:".data.isPrefixOf name.data
  decodeUrn := fun name =>
    if name = "xdstp://auth/type/id?node=n1" then ⟨"id", "auth", "type", nodeContext⟩
    else if name = "xdstp://auth/type/id" then ⟨"id", "auth", "type", []⟩
    else ⟨"", "", "", []⟩
  encodeUrn := fun resource _ =>
    "xdstp://" ++ resource.authority ++ "/" ++ resource.resource_type ++ "/" ++ resource.id ++
      (match ProtoMap.find "node" resource.context with
        | some value => "?node=" ++ value
        | none => "")

end Sample
end Config
end Envoy

namespace Envoy

/-! ## CEL formatter -/

namespace StdString

/-- The call `s.substr(pos, count)` of `std::string` for a position that is not past
the end (the formatter calls it at position 0, where it never throws): the
characters from `pos` on, at most `count` of them. A `Char` stands for one
`char` of the string. -/
def substr (s : String) (pos count : Nat) : String :=
  ⟨(s.data.drop pos).take count⟩

end StdString

namespace ProtobufWkt

/-- The cases of `ProtobufWkt::Value` made by the formatter: `ValueUtil::nullValue()`
and `ValueUtil::stringValue(s)`. -/
inductive Value where
  | nullValue
  | stringValue (s : String)
deriving DecidableEq, Repr

end ProtobufWkt

namespace Extensions
namespace Formatter

/-- The functions of the CEL library read by the formatter, for a type `CelValue` of
evaluation results: the method `CelValue::IsError` and the function
`Expr::print`. Their bodies are outside this file, so they are parameters of
the embedding. -/
structure Expr (CelValue : Type) where
  IsError : CelValue → Bool
  print : CelValue → String

/-- The data members of `CELFormatter` read by `format`: the optional `max_length_`
(the compiled expression is behind `Expr::evaluate`, whose outcome is an
argument of `format`). -/
structure CELFormatter where
  max_length_ : Option Nat
deriving DecidableEq, Repr

namespace CELFormatter

/-- The method `CELFormatter::format`. The argument `eval_status` is the outcome of
`Expr::evaluate` on the compiled expression, the stream info and the headers:
`none` for no result, else the value. The result is `absl::nullopt` (`none`) or
the string. -/
def format {CelValue : Type} (expr : Expr CelValue) (self : CELFormatter)
    (eval_status : Option CelValue) : Option String :=
  match eval_status with
  | none => none
  | some value =>
    if expr.IsError value then none
    else
      let result := expr.print value
      match self.max_length_ with
      | some max_length => some (StdString.substr result 0 max_length)
      | none => some result

/-- The method `CELFormatter::formatValue`: it calls `format` on the same request,
hence with the same outcome of the evaluation. -/
def formatValue {CelValue : Type} (expr : Expr CelValue) (self : CELFormatter)
    (eval_status : Option CelValue) : ProtobufWkt.Value :=
  match format expr self eval_status with
  | none => ProtobufWkt.Value.nullValue
  | some result => ProtobufWkt.Value.stringValue result

end CELFormatter

namespace Sample

/-- A sample result type for concrete runs: an error value, or a value with its
printed form. -/
inductive CelValue where
  | error
  | value (printed : String)
deriving DecidableEq, Repr

/-- The sample library: `error` is the error value, a value prints as its text. -/
def expr : Expr CelValue where
  IsError := fun v => match v with
    | .error => true
    | .value _ => false
  print := fun v => match v with
    | .error => "error"
    | .value printed => printed

end Sample

end Formatter
end Extensions
end Envoy

/-! # Properties -/

namespace Envoy
namespace Config
namespace GrpcMuxImpl

/-! ## The state primitives -/

@[simp]
theorem apiStateFor_fst_watches (t : String) (s : GrpcMuxImpl) :
    (s.apiStateFor t).1.watches_ = s.watchesOf t := by
  unfold apiStateFor watchesOf
  cases h : s.api_state_ t <;> simp [ApiState.new]

@[simp]
theorem apiStateFor_snd_watch_objs (t : String) (s : GrpcMuxImpl) :
    (s.apiStateFor t).2.watch_objs_ = s.watch_objs_ := by
  unfold apiStateFor
  cases h : s.api_state_ t <;> simp

@[simp]
theorem apiStateFor_snd_next_watch (t : String) (s : GrpcMuxImpl) :
    (s.apiStateFor t).2.next_watch_ = s.next_watch_ := by
  unfold apiStateFor
  cases h : s.api_state_ t <;> simp

@[simp]
theorem apiStateFor_snd_node_context (t : String) (s : GrpcMuxImpl) :
    (s.apiStateFor t).2.node_context_ = s.node_context_ := by
  unfold apiStateFor
  cases h : s.api_state_ t <;> simp

@[simp]
theorem apiStateFor_snd_queue_calls (t : String) (s : GrpcMuxImpl) :
    (s.apiStateFor t).2.queue_calls_ = s.queue_calls_ := by
  unfold apiStateFor
  cases h : s.api_state_ t <;> simp

@[simp]
theorem apiStateFor_snd_request_queue (t : String) (s : GrpcMuxImpl) :
    (s.apiStateFor t).2.request_queue_ = s.request_queue_ := by
  unfold apiStateFor
  cases h : s.api_state_ t <;> simp

@[simp]
theorem apiStateFor_snd_watchesOf (t t' : String) (s : GrpcMuxImpl) :
    (s.apiStateFor t).2.watchesOf t' = s.watchesOf t' := by
  unfold apiStateFor watchesOf
  cases h : s.api_state_ t
  · by_cases ht : t' = t
    · subst ht
      simp [h, ApiState.new]
    · simp [Function.update_noteq ht]
  · simp

@[simp]
theorem apiStateFor_snd_api_state_self (t : String) (s : GrpcMuxImpl) :
    (s.apiStateFor t).2.api_state_ t = some (s.apiStateFor t).1 := by
  unfold apiStateFor
  cases h : s.api_state_ t <;> simp [h]

theorem apiStateFor_snd_api_state_other (t t' : String) (s : GrpcMuxImpl) (h : t' ≠ t) :
    (s.apiStateFor t).2.api_state_ t' = s.api_state_ t' := by
  unfold apiStateFor
  cases h' : s.api_state_ t <;> simp [Function.update_noteq h]

@[simp]
theorem apiStateFor_fst_pauses (t : String) (s : GrpcMuxImpl) :
    (s.apiStateFor t).1.pauses_ = s.pausesOf t := by
  unfold apiStateFor pausesOf
  cases h : s.api_state_ t <;> simp [ApiState.new]

@[simp]
theorem setApiState_watch_objs (t : String) (a : ApiState) (s : GrpcMuxImpl) :
    (s.setApiState t a).watch_objs_ = s.watch_objs_ := rfl

@[simp]
theorem setApiState_next_watch (t : String) (a : ApiState) (s : GrpcMuxImpl) :
    (s.setApiState t a).next_watch_ = s.next_watch_ := rfl

@[simp]
theorem setApiState_node_context (t : String) (a : ApiState) (s : GrpcMuxImpl) :
    (s.setApiState t a).node_context_ = s.node_context_ := rfl

@[simp]
theorem setApiState_queue_calls (t : String) (a : ApiState) (s : GrpcMuxImpl) :
    (s.setApiState t a).queue_calls_ = s.queue_calls_ := rfl

@[simp]
theorem setApiState_request_queue (t : String) (a : ApiState) (s : GrpcMuxImpl) :
    (s.setApiState t a).request_queue_ = s.request_queue_ := rfl

theorem setApiState_watchesOf (t t' : String) (a : ApiState) (s : GrpcMuxImpl) :
    (s.setApiState t a).watchesOf t' = if t' = t then a.watches_ else s.watchesOf t' := by
  unfold setApiState watchesOf
  by_cases ht : t' = t
  · subst ht
    simp
  · simp [Function.update_noteq ht, ht]

theorem setApiState_pausesOf (t t' : String) (a : ApiState) (s : GrpcMuxImpl) :
    (s.setApiState t a).pausesOf t' = if t' = t then a.pauses_ else s.pausesOf t' := by
  unfold setApiState pausesOf
  by_cases ht : t' = t
  · subst ht
    simp
  · simp [Function.update_noteq ht, ht]

@[simp]
theorem modifyWatches_watch_objs (t : String) (f : List WatchId → List WatchId)
    (s : GrpcMuxImpl) : (s.modifyWatches t f).watch_objs_ = s.watch_objs_ := by
  simp [modifyWatches]

@[simp]
theorem modifyWatches_next_watch (t : String) (f : List WatchId → List WatchId)
    (s : GrpcMuxImpl) : (s.modifyWatches t f).next_watch_ = s.next_watch_ := by
  simp [modifyWatches]

@[simp]
theorem modifyWatches_node_context (t : String) (f : List WatchId → List WatchId)
    (s : GrpcMuxImpl) : (s.modifyWatches t f).node_context_ = s.node_context_ := by
  simp [modifyWatches]

@[simp]
theorem modifyWatches_queue_calls (t : String) (f : List WatchId → List WatchId)
    (s : GrpcMuxImpl) : (s.modifyWatches t f).queue_calls_ = s.queue_calls_ := by
  simp [modifyWatches]

@[simp]
theorem modifyWatches_storedNames (t : String) (f : List WatchId → List WatchId)
    (s : GrpcMuxImpl) (w : WatchId) : (s.modifyWatches t f).storedNames w = s.storedNames w := by
  simp [storedNames]

theorem modifyWatches_watchesOf (t t' : String) (f : List WatchId → List WatchId)
    (s : GrpcMuxImpl) :
    (s.modifyWatches t f).watchesOf t' = if t' = t then f (s.watchesOf t) else s.watchesOf t' := by
  simp [modifyWatches, setApiState_watchesOf]

@[simp]
theorem modifyWatches_watchesOf_self (t : String) (f : List WatchId → List WatchId)
    (s : GrpcMuxImpl) : (s.modifyWatches t f).watchesOf t = f (s.watchesOf t) := by
  simp [modifyWatches_watchesOf]

@[simp]
theorem queueDiscoveryRequest_watch_objs (t : String) (s : GrpcMuxImpl) :
    (s.queueDiscoveryRequest t).watch_objs_ = s.watch_objs_ := by
  unfold queueDiscoveryRequest
  simp only []
  split_ifs <;> simp

@[simp]
theorem queueDiscoveryRequest_next_watch (t : String) (s : GrpcMuxImpl) :
    (s.queueDiscoveryRequest t).next_watch_ = s.next_watch_ := by
  unfold queueDiscoveryRequest
  simp only []
  split_ifs <;> simp

@[simp]
theorem queueDiscoveryRequest_node_context (t : String) (s : GrpcMuxImpl) :
    (s.queueDiscoveryRequest t).node_context_ = s.node_context_ := by
  unfold queueDiscoveryRequest
  simp only []
  split_ifs <;> simp

@[simp]
theorem queueDiscoveryRequest_queue_calls (t : String) (s : GrpcMuxImpl) :
    (s.queueDiscoveryRequest t).queue_calls_
      = s.queue_calls_ ++ [⟨t, s.registrySnapshot t⟩] := by
  unfold queueDiscoveryRequest
  simp only []
  split_ifs <;> simp

@[simp]
theorem queueDiscoveryRequest_watchesOf (t t' : String) (s : GrpcMuxImpl) :
    (s.queueDiscoveryRequest t).watchesOf t' = s.watchesOf t' := by
  unfold queueDiscoveryRequest
  simp only []
  split_ifs
  · rw [setApiState_watchesOf]
    by_cases ht : t' = t
    · subst ht
      simp
      rfl
    · simp [ht]
      rfl
  · simp
    rfl
  · have : ∀ (x : GrpcMuxImpl) (q : List String),
        ({ x with request_queue_ := q } : GrpcMuxImpl).watchesOf t' = x.watchesOf t' :=
      fun _ _ => rfl
    rw [this]
    simp
    rfl

@[simp]
theorem queueDiscoveryRequest_storedNames (t : String) (s : GrpcMuxImpl) (w : WatchId) :
    (s.queueDiscoveryRequest t).storedNames w = s.storedNames w := by
  simp [storedNames]

end GrpcMuxImpl
end Config
end Envoy

namespace Envoy
namespace Config
namespace GrpcMuxWatchImpl

open GrpcMuxImpl

/-! ## The watch methods, field by field -/

theorem updateResources_watch_objs (xds : XdsResourceIdentifier) (s : GrpcMuxImpl)
    (w : WatchId) (obj : GrpcMuxWatchImpl) (rs : List String) (h : s.watch_objs_ w = some obj) :
    (updateResources xds w rs s).watch_objs_
      = Function.update s.watch_objs_ w
          (some { obj with
            resources_ := normalizedSet xds s.node_context_ obj.subscription_options_ rs }) := by
  simp [updateResources, h]

theorem updateResources_watchesOf (xds : XdsResourceIdentifier) (s : GrpcMuxImpl)
    (w : WatchId) (obj : GrpcMuxWatchImpl) (rs : List String) (h : s.watch_objs_ w = some obj)
    (t : String) :
    (updateResources xds w rs s).watchesOf t
      = if t = obj.type_url_ then w :: s.watchesOf t else s.watchesOf t := by
  simp only [updateResources, h, modifyWatches_watchesOf]
  by_cases ht : t = obj.type_url_
  · subst ht
    simp
    rfl
  · simp [ht]
    rfl

theorem updateResources_queue_calls (xds : XdsResourceIdentifier) (s : GrpcMuxImpl)
    (w : WatchId) (rs : List String) :
    (updateResources xds w rs s).queue_calls_ = s.queue_calls_ := by
  unfold updateResources
  cases h : s.watch_objs_ w <;> simp

theorem updateResources_next_watch (xds : XdsResourceIdentifier) (s : GrpcMuxImpl)
    (w : WatchId) (rs : List String) :
    (updateResources xds w rs s).next_watch_ = s.next_watch_ := by
  unfold updateResources
  cases h : s.watch_objs_ w <;> simp

theorem updateResources_node_context (xds : XdsResourceIdentifier) (s : GrpcMuxImpl)
    (w : WatchId) (rs : List String) :
    (updateResources xds w rs s).node_context_ = s.node_context_ := by
  unfold updateResources
  cases h : s.watch_objs_ w <;> simp

/-- The registry after the `erase` that opens `update` and the destructor. -/
theorem erased_watchesOf (s : GrpcMuxImpl) (w : WatchId) (obj : GrpcMuxWatchImpl)
    (p : Prop) [Decidable p] (t : String) :
    (if p then
        (s.modifyWatches obj.type_url_ (fun l => l.erase w)).queueDiscoveryRequest obj.type_url_
      else s.modifyWatches obj.type_url_ (fun l => l.erase w)).watchesOf t
      = if t = obj.type_url_ then (s.watchesOf t).erase w else s.watchesOf t := by
  by_cases hp : p <;> simp [hp, modifyWatches_watchesOf] <;>
    by_cases ht : t = obj.type_url_ <;> simp [ht]

theorem erased_watch_objs (s : GrpcMuxImpl) (w : WatchId) (obj : GrpcMuxWatchImpl) (p : Prop) [Decidable p] :
    (if p then
        (s.modifyWatches obj.type_url_ (fun l => l.erase w)).queueDiscoveryRequest obj.type_url_
      else s.modifyWatches obj.type_url_ (fun l => l.erase w)).watch_objs_
      = s.watch_objs_ := by
  by_cases hp : p <;> simp [hp]

theorem erased_node_context (s : GrpcMuxImpl) (w : WatchId) (obj : GrpcMuxWatchImpl) (p : Prop) [Decidable p] :
    (if p then
        (s.modifyWatches obj.type_url_ (fun l => l.erase w)).queueDiscoveryRequest obj.type_url_
      else s.modifyWatches obj.type_url_ (fun l => l.erase w)).node_context_
      = s.node_context_ := by
  by_cases hp : p <;> simp [hp]

theorem erased_next_watch (s : GrpcMuxImpl) (w : WatchId) (obj : GrpcMuxWatchImpl) (p : Prop) [Decidable p] :
    (if p then
        (s.modifyWatches obj.type_url_ (fun l => l.erase w)).queueDiscoveryRequest obj.type_url_
      else s.modifyWatches obj.type_url_ (fun l => l.erase w)).next_watch_
      = s.next_watch_ := by
  by_cases hp : p <;> simp [hp]

theorem erased_queue_calls (s : GrpcMuxImpl) (w : WatchId) (obj : GrpcMuxWatchImpl) (p : Prop) [Decidable p] :
    (if p then
        (s.modifyWatches obj.type_url_ (fun l => l.erase w)).queueDiscoveryRequest obj.type_url_
      else s.modifyWatches obj.type_url_ (fun l => l.erase w)).queue_calls_
      = s.queue_calls_ ++
          (if p then
            [⟨obj.type_url_, ((s.watchesOf obj.type_url_).erase w).map
              (fun x => (x, s.storedNames x))⟩]
          else []) := by
  by_cases hp : p <;> simp [hp, registrySnapshot]

/-! ### `update` -/

theorem update_watch_objs (xds : XdsResourceIdentifier) (s : GrpcMuxImpl)
    (w : WatchId) (obj : GrpcMuxWatchImpl) (rs : List String) (h : s.watch_objs_ w = some obj) :
    (update xds w rs s).watch_objs_
      = Function.update s.watch_objs_ w
          (some { obj with
            resources_ := normalizedSet xds s.node_context_ obj.subscription_options_ rs }) := by
  have h2 := (erased_watch_objs s w obj (obj.resources_ ≠ [])).trans (Eq.refl s.watch_objs_)
  simp only [update, h, queueDiscoveryRequest_watch_objs]
  rw [updateResources_watch_objs xds _ w obj rs (by rw [h2]; exact h), h2, erased_node_context]

theorem update_watchesOf (xds : XdsResourceIdentifier) (s : GrpcMuxImpl)
    (w : WatchId) (obj : GrpcMuxWatchImpl) (rs : List String) (h : s.watch_objs_ w = some obj)
    (t : String) :
    (update xds w rs s).watchesOf t
      = if t = obj.type_url_ then w :: (s.watchesOf t).erase w else s.watchesOf t := by
  have h2 := erased_watch_objs s w obj (obj.resources_ ≠ [])
  simp only [update, h, queueDiscoveryRequest_watchesOf]
  rw [updateResources_watchesOf xds _ w obj rs (by rw [h2]; exact h), erased_watchesOf]
  by_cases ht : t = obj.type_url_ <;> simp [ht]

theorem update_next_watch (xds : XdsResourceIdentifier) (s : GrpcMuxImpl)
    (w : WatchId) (rs : List String) :
    (update xds w rs s).next_watch_ = s.next_watch_ := by
  unfold update
  cases h : s.watch_objs_ w
  · rfl
  · simp only [queueDiscoveryRequest_next_watch, updateResources_next_watch, erased_next_watch]

theorem update_node_context (xds : XdsResourceIdentifier) (s : GrpcMuxImpl)
    (w : WatchId) (rs : List String) :
    (update xds w rs s).node_context_ = s.node_context_ := by
  unfold update
  cases h : s.watch_objs_ w
  · rfl
  · simp only [queueDiscoveryRequest_node_context, updateResources_node_context,
      erased_node_context]

theorem update_queue_calls (xds : XdsResourceIdentifier) (s : GrpcMuxImpl)
    (w : WatchId) (obj : GrpcMuxWatchImpl) (rs : List String) (h : s.watch_objs_ w = some obj) :
    (update xds w rs s).queue_calls_
      = s.queue_calls_
        ++ (if obj.resources_ ≠ [] then
              [⟨obj.type_url_, ((s.watchesOf obj.type_url_).erase w).map
                (fun x => (x, s.storedNames x))⟩]
            else [])
        ++ [⟨obj.type_url_, (update xds w rs s).registrySnapshot obj.type_url_⟩] := by
  have h2 := erased_watch_objs s w obj (obj.resources_ ≠ [])
  have e : ∀ x : GrpcMuxImpl,
      (x.queueDiscoveryRequest obj.type_url_).registrySnapshot obj.type_url_
        = x.registrySnapshot obj.type_url_ := by
    intro x
    simp [registrySnapshot]
  simp only [update, h, queueDiscoveryRequest_queue_calls, updateResources_queue_calls,
    erased_queue_calls, e]

/-! ### The destructor -/

theorem destroy_watch_objs (s : GrpcMuxImpl) (w : WatchId) (obj : GrpcMuxWatchImpl)
    (h : s.watch_objs_ w = some obj) :
    (destroy w s).watch_objs_ = Function.update s.watch_objs_ w none := by
  simp only [destroy, h, erased_watch_objs]

theorem destroy_watchesOf (s : GrpcMuxImpl) (w : WatchId) (obj : GrpcMuxWatchImpl)
    (h : s.watch_objs_ w = some obj) (t : String) :
    (destroy w s).watchesOf t
      = if t = obj.type_url_ then (s.watchesOf t).erase w else s.watchesOf t := by
  have e : ∀ (x : GrpcMuxImpl) (m : WatchId → Option GrpcMuxWatchImpl),
      ({ x with watch_objs_ := m } : GrpcMuxImpl).watchesOf t = x.watchesOf t := fun _ _ => rfl
  simp only [destroy, h, e, erased_watchesOf]

theorem destroy_next_watch (s : GrpcMuxImpl) (w : WatchId) :
    (destroy w s).next_watch_ = s.next_watch_ := by
  unfold destroy
  cases h : s.watch_objs_ w
  · rfl
  · simp only [erased_next_watch]

theorem destroy_node_context (s : GrpcMuxImpl) (w : WatchId) :
    (destroy w s).node_context_ = s.node_context_ := by
  unfold destroy
  cases h : s.watch_objs_ w
  · rfl
  · simp only [erased_node_context]

theorem destroy_queue_calls (s : GrpcMuxImpl) (w : WatchId) (obj : GrpcMuxWatchImpl)
    (h : s.watch_objs_ w = some obj) :
    (destroy w s).queue_calls_
      = s.queue_calls_
        ++ (if obj.resources_ ≠ [] then
              [⟨obj.type_url_, ((s.watchesOf obj.type_url_).erase w).map
                (fun x => (x, s.storedNames x))⟩]
            else []) := by
  simp only [destroy, h, erased_queue_calls]

/-! ### The constructor -/

theorem construct_watch_objs (xds : XdsResourceIdentifier) (s : GrpcMuxImpl)
    (rs : List String) (cb dec : Nat) (t : String) (o : SubscriptionOptions) :
    (construct xds rs cb dec t o s).watch_objs_
      = Function.update s.watch_objs_ s.next_watch_
          (some ⟨normalizedSet xds s.node_context_ o rs, cb, dec, t, o⟩) := by
  unfold construct
  simp only []
  rw [updateResources_watch_objs xds _ _ ⟨[], cb, dec, t, o⟩ rs (by simp)]
  simp

theorem construct_watchesOf (xds : XdsResourceIdentifier) (s : GrpcMuxImpl)
    (rs : List String) (cb dec : Nat) (t : String) (o : SubscriptionOptions) (t' : String) :
    (construct xds rs cb dec t o s).watchesOf t'
      = if t' = t then s.next_watch_ :: s.watchesOf t' else s.watchesOf t' := by
  have e : ∀ (x : GrpcMuxImpl) (m : WatchId → Option GrpcMuxWatchImpl) (n : WatchId),
      ({ x with watch_objs_ := m, next_watch_ := n } : GrpcMuxImpl).watchesOf t'
        = x.watchesOf t' := fun _ _ _ => rfl
  unfold construct
  simp only []
  rw [updateResources_watchesOf xds _ _ ⟨[], cb, dec, t, o⟩ rs (by simp), e]
  simp

theorem construct_next_watch (xds : XdsResourceIdentifier) (s : GrpcMuxImpl)
    (rs : List String) (cb dec : Nat) (t : String) (o : SubscriptionOptions) :
    (construct xds rs cb dec t o s).next_watch_ = s.next_watch_ + 1 := by
  unfold construct
  simp only [updateResources_next_watch]

theorem construct_node_context (xds : XdsResourceIdentifier) (s : GrpcMuxImpl)
    (rs : List String) (cb dec : Nat) (t : String) (o : SubscriptionOptions) :
    (construct xds rs cb dec t o s).node_context_ = s.node_context_ := by
  unfold construct
  simp only [updateResources_node_context, apiStateFor_snd_node_context]

theorem construct_queue_calls (xds : XdsResourceIdentifier) (s : GrpcMuxImpl)
    (rs : List String) (cb dec : Nat) (t : String) (o : SubscriptionOptions) :
    (construct xds rs cb dec t o s).queue_calls_ = s.queue_calls_ := by
  unfold construct
  simp only [updateResources_queue_calls, apiStateFor_snd_queue_calls]

end GrpcMuxWatchImpl
end Config
end Envoy

namespace Envoy
namespace Config

open GrpcMuxImpl GrpcMuxWatchImpl

/-! ## Preservation of the registry invariant -/

theorem WatchInv.init (xds : XdsResourceIdentifier) (node : ContextParams) :
    WatchInv xds (GrpcMuxImpl.new node) (0, []) := by
  refine ⟨rfl, ?_, ?_, ?_, ?_, ?_, ?_⟩
  · simp
  · simp
  · simp
  · intro w obj h
    simp [GrpcMuxImpl.new] at h
  · intro t
    simp [GrpcMuxImpl.new, watchesOf]
  · intro t w
    simp [GrpcMuxImpl.new, watchesOf]

theorem WatchInv.construct {xds : XdsResourceIdentifier} {s : GrpcMuxImpl}
    {g : Nat × List LiveWatch} (inv : WatchInv xds s g)
    (rs : List String) (cb dec : Nat) (t : String) (o : SubscriptionOptions) :
    WatchInv xds (construct xds rs cb dec t o s) (g.1 + 1, ⟨g.1, t, o, rs⟩ :: g.2) := by
  have hfresh : s.watch_objs_ s.next_watch_ = none := by
    cases h : s.watch_objs_ s.next_watch_ with
    | none => rfl
    | some obj =>
      obtain ⟨lw, hlw, hid⟩ := inv.obj_live _ _ h
      have hlt := inv.ids_lt lw hlw
      rw [hid, inv.next_eq] at hlt
      exact absurd hlt (Nat.lt_irrefl _)
  have hnotin : ∀ t', s.next_watch_ ∉ s.watchesOf t' := by
    intro t' hmem
    obtain ⟨obj, hobj, _⟩ := (inv.reg_mem t' _).1 hmem
    rw [hfresh] at hobj
    cases hobj
  refine ⟨?_, ?_, ?_, ?_, ?_, ?_, ?_⟩
  · rw [construct_next_watch, inv.next_eq]
  · intro lw hlw
    rcases List.mem_cons.1 hlw with rfl | h
    · exact Nat.lt_succ_self _
    · exact Nat.lt_succ_of_lt (inv.ids_lt lw h)
  · simp only [List.map_cons, List.nodup_cons]
    refine ⟨?_, inv.ids_nodup⟩
    intro hmem
    obtain ⟨lw, hlw, hid⟩ := List.mem_map.1 hmem
    have hlt := inv.ids_lt lw hlw
    rw [hid] at hlt
    exact Nat.lt_irrefl _ hlt
  · intro lw hlw
    rw [construct_watch_objs, construct_node_context]
    rcases List.mem_cons.1 hlw with rfl | h
    · exact ⟨⟨normalizedSet xds s.node_context_ o rs, cb, dec, t, o⟩,
        by rw [inv.next_eq]; exact Function.update_same _ _ _, rfl, rfl, rfl⟩
    · obtain ⟨obj, h1, h2⟩ := inv.live_obj lw h
      have hne : lw.id ≠ s.next_watch_ := by
        rw [inv.next_eq]
        exact Nat.ne_of_lt (inv.ids_lt lw h)
      exact ⟨obj, by rw [Function.update_noteq hne]; exact h1, h2⟩
  · intro w obj h
    rw [construct_watch_objs] at h
    by_cases hw : w = s.next_watch_
    · exact ⟨_, List.mem_cons_self _ _, by rw [hw, inv.next_eq]⟩
    · rw [Function.update_noteq hw] at h
      obtain ⟨lw, hlw, hid⟩ := inv.obj_live w obj h
      exact ⟨lw, List.mem_cons_of_mem _ hlw, hid⟩
  · intro t'
    rw [construct_watchesOf]
    by_cases ht : t' = t
    · simp only [ht, if_true, List.nodup_cons]
      exact ⟨hnotin t, inv.reg_nodup t⟩
    · simp only [ht, if_false]
      exact inv.reg_nodup t'
  · intro t' w
    rw [construct_watchesOf, construct_watch_objs]
    by_cases hw : w = s.next_watch_
    · subst hw
      by_cases ht : t' = t
      · simp [ht]
      · simp only [ht, if_false, Function.update_same]
        constructor
        · intro h
          exact absurd h (hnotin t')
        · rintro ⟨obj, h1, h2⟩
          simp only [Option.some.injEq] at h1
          subst h1
          exact absurd h2.symm ht
    · rw [Function.update_noteq hw, ← inv.reg_mem t' w]
      by_cases ht : t' = t
      · simp [ht, hw]
      · simp [ht]

theorem WatchInv.no_live_of_none {xds : XdsResourceIdentifier} {s : GrpcMuxImpl}
    {g : Nat × List LiveWatch} (inv : WatchInv xds s g) {w : WatchId}
    (h : s.watch_objs_ w = none) : ∀ lw ∈ g.2, lw.id ≠ w := by
  intro lw hlw hid
  obtain ⟨obj, hobj, _⟩ := inv.live_obj lw hlw
  rw [hid, h] at hobj
  cases hobj

theorem WatchInv.update {xds : XdsResourceIdentifier} {s : GrpcMuxImpl}
    {g : Nat × List LiveWatch} (inv : WatchInv xds s g) (w : WatchId) (rs : List String) :
    WatchInv xds (update xds w rs s)
      (g.1, g.2.map (fun lw => if lw.id = w then { lw with resources := rs } else lw)) := by
  cases h : s.watch_objs_ w with
  | none =>
    have e1 : GrpcMuxWatchImpl.update xds w rs s = s := by simp [GrpcMuxWatchImpl.update, h]
    have e2 : g.2.map (fun lw => if lw.id = w then { lw with resources := rs } else lw) = g.2 := by
      conv_rhs => rw [← List.map_id g.2]
      apply List.map_congr_left
      intro lw hlw
      simp [inv.no_live_of_none h lw hlw]
    rw [e1, e2]
    exact inv
  | some obj =>
    have hid : ∀ lw : LiveWatch,
        (if lw.id = w then { lw with resources := rs } else lw).id = lw.id := by
      intro lw
      split_ifs <;> rfl
    refine ⟨?_, ?_, ?_, ?_, ?_, ?_, ?_⟩
    · rw [update_next_watch, inv.next_eq]
    · intro lw' hlw'
      obtain ⟨lw, hlw, rfl⟩ := List.mem_map.1 hlw'
      rw [hid]
      exact inv.ids_lt lw hlw
    · have : (g.2.map (fun lw => if lw.id = w then { lw with resources := rs } else lw)).map
          (fun lw => lw.id) = g.2.map (fun lw => lw.id) := by
        rw [List.map_map]
        apply List.map_congr_left
        intro lw _
        exact hid lw
      simp only [this]
      exact inv.ids_nodup
    · intro lw' hlw'
      obtain ⟨lw, hlw, rfl⟩ := List.mem_map.1 hlw'
      obtain ⟨obj0, h0, h1, h2, h3⟩ := inv.live_obj lw hlw
      rw [update_watch_objs xds s w obj rs h, update_node_context]
      by_cases hw : lw.id = w
      · rw [hw, h] at h0
        cases h0
        rw [if_pos hw]
        dsimp only
        rw [hw, Function.update_same]
        exact ⟨_, rfl, h1, h2, by rw [h2]⟩
      · rw [if_neg hw, Function.update_noteq hw]
        exact ⟨obj0, h0, h1, h2, h3⟩
    · intro x o hx
      rw [update_watch_objs xds s w obj rs h] at hx
      by_cases hw : x = w
      · obtain ⟨lw, hlw, hlid⟩ := inv.obj_live w obj h
        exact ⟨_, List.mem_map_of_mem _ hlw, by rw [hid, hlid, hw]⟩
      · rw [Function.update_noteq hw] at hx
        obtain ⟨lw, hlw, hlid⟩ := inv.obj_live x o hx
        exact ⟨_, List.mem_map_of_mem _ hlw, by rw [hid, hlid]⟩
    · intro t
      rw [update_watchesOf xds s w obj rs h]
      by_cases ht : t = obj.type_url_
      · simp only [ht, if_true, List.nodup_cons]
        exact ⟨(inv.reg_nodup _).not_mem_erase, (inv.reg_nodup _).erase w⟩
      · simp only [ht, if_false]
        exact inv.reg_nodup t
    · intro t x
      rw [update_watchesOf xds s w obj rs h, update_watch_objs xds s w obj rs h]
      by_cases hw : x = w
      · subst hw
        by_cases ht : t = obj.type_url_
        · simp [ht]
        · simp only [ht, if_false, Function.update_same, inv.reg_mem t x, h]
          simp
      · rw [Function.update_noteq hw, ← inv.reg_mem t x]
        by_cases ht : t = obj.type_url_
        · simp [ht, hw, List.mem_erase_of_ne hw]
        · simp [ht]

theorem WatchInv.destroy {xds : XdsResourceIdentifier} {s : GrpcMuxImpl}
    {g : Nat × List LiveWatch} (inv : WatchInv xds s g) (w : WatchId) :
    WatchInv xds (destroy w s) (g.1, g.2.filter (fun lw => decide (lw.id ≠ w))) := by
  cases h : s.watch_objs_ w with
  | none =>
    have e1 : GrpcMuxWatchImpl.destroy w s = s := by simp [GrpcMuxWatchImpl.destroy, h]
    have e2 : g.2.filter (fun lw => decide (lw.id ≠ w)) = g.2 := by
      apply List.filter_eq_self.2
      intro lw hlw
      simpa using inv.no_live_of_none h lw hlw
    rw [e1, e2]
    exact inv
  | some obj =>
    refine ⟨?_, ?_, ?_, ?_, ?_, ?_, ?_⟩
    · rw [destroy_next_watch, inv.next_eq]
    · intro lw hlw
      exact inv.ids_lt lw (List.mem_filter.1 hlw).1
    · exact inv.ids_nodup.sublist (List.Sublist.map _ (List.filter_sublist _))
    · intro lw hlw
      obtain ⟨hlw, hne⟩ := List.mem_filter.1 hlw
      have hne : lw.id ≠ w := by simpa using hne
      rw [destroy_watch_objs s w obj h, destroy_node_context, Function.update_noteq hne]
      exact inv.live_obj lw hlw
    · intro x o hx
      rw [destroy_watch_objs s w obj h] at hx
      by_cases hw : x = w
      · rw [hw, Function.update_same] at hx
        cases hx
      · rw [Function.update_noteq hw] at hx
        obtain ⟨lw, hlw, hlid⟩ := inv.obj_live x o hx
        exact ⟨lw, List.mem_filter.2 ⟨hlw, by simpa [hlid] using hw⟩, hlid⟩
    · intro t
      rw [destroy_watchesOf s w obj h]
      by_cases ht : t = obj.type_url_
      · simp only [ht, if_true]
        exact (inv.reg_nodup _).erase w
      · simp only [ht, if_false]
        exact inv.reg_nodup t
    · intro t x
      rw [destroy_watchesOf s w obj h, destroy_watch_objs s w obj h]
      by_cases hw : x = w
      · subst hw
        by_cases ht : t = obj.type_url_
        · simp [ht, (inv.reg_nodup _).not_mem_erase]
        · simp only [ht, if_false, Function.update_same, inv.reg_mem t x, h]
          simp [ht]
          exact fun e => ht e.symm
      · rw [Function.update_noteq hw, ← inv.reg_mem t x]
        by_cases ht : t = obj.type_url_
        · simp [ht, List.mem_erase_of_ne hw]
        · simp [ht]

theorem WatchInv.step {xds : XdsResourceIdentifier} {s : GrpcMuxImpl}
    {g : Nat × List LiveWatch} (inv : WatchInv xds s g) (op : WatchOp) :
    WatchInv xds (watchStep xds s op) (liveStep g op) := by
  cases op with
  | addWatch t rs cb dec o => exact inv.construct rs cb dec t o
  | update w rs => exact inv.update w rs
  | release w => exact inv.destroy w

theorem WatchInv.run {xds : XdsResourceIdentifier} (ops : List WatchOp) :
    ∀ {s : GrpcMuxImpl} {g : Nat × List LiveWatch}, WatchInv xds s g →
      WatchInv xds (runWatchOps xds ops s) (ops.foldl liveStep g) := by
  induction ops with
  | nil => intro s g inv; exact inv
  | cons op ops ih =>
    intro s g inv
    exact ih (inv.step op)

/-- Every state reached from a new multiplexer by watch operations keeps the
registry invariant against the live watches of the specification. -/
theorem WatchInv.reachable (xds : XdsResourceIdentifier) (node : ContextParams)
    (ops : List WatchOp) :
    WatchInv xds (runWatchOps xds ops (GrpcMuxImpl.new node)) (ops.foldl liveStep (0, [])) :=
  WatchInv.run ops (WatchInv.init xds node)

end Config
end Envoy

namespace Envoy
namespace StdSet

/-! ## The ordered set -/

theorem data_lt_iff (x y : String) : x.data < y.data ↔ x < y :=
  String.lt_iff_toList_lt.symm

theorem mem_insert (n x : String) (l : List String) : n ∈ insert x l ↔ n = x ∨ n ∈ l := by
  induction l with
  | nil => simp [insert]
  | cons y ys ih =>
    unfold insert
    simp only [data_lt_iff]
    split_ifs with h1 h2
    · simp
    · simp only [List.mem_cons, ih]
      tauto
    · have hxy : x = y := le_antisymm (not_lt.1 h2) (not_lt.1 h1)
      subst hxy
      simp

theorem sorted_insert (x : String) (l : List String) (h : l.Sorted (· < ·)) :
    (insert x l).Sorted (· < ·) := by
  induction l with
  | nil => simp [insert]
  | cons y ys ih =>
    unfold insert
    simp only [data_lt_iff]
    have hy := List.sorted_cons.1 h
    split_ifs with h1 h2
    · refine List.sorted_cons.2 ⟨?_, h⟩
      intro b hb
      rcases List.mem_cons.1 hb with rfl | hb
      · exact h1
      · exact lt_trans h1 (hy.1 b hb)
    · refine List.sorted_cons.2 ⟨?_, ih hy.2⟩
      intro b hb
      rcases (mem_insert b x ys).1 hb with rfl | hb
      · exact h2
      · exact hy.1 b hb
    · exact h

/-- Two strictly ascending lists with the same elements are the same list. -/
theorem eq_of_sorted_of_mem_iff {l₁ l₂ : List String} (h₁ : l₁.Sorted (· < ·))
    (h₂ : l₂.Sorted (· < ·)) (h : ∀ n, n ∈ l₁ ↔ n ∈ l₂) : l₁ = l₂ :=
  List.eq_of_perm_of_sorted ((List.perm_ext_iff_of_nodup h₁.nodup h₂.nodup).2 h) h₁ h₂

end StdSet

namespace Config
namespace GrpcMuxWatchImpl

/-! ## The stored name set -/

theorem foldl_insert_mem (f : String → String) (rs : List String) :
    ∀ (acc : List String) (n : String),
      n ∈ rs.foldl (fun acc r => StdSet.insert (f r) acc) acc ↔ n ∈ acc ∨ ∃ r ∈ rs, f r = n := by
  induction rs with
  | nil => intro acc n; simp
  | cons r rs ih =>
    intro acc n
    simp only [List.foldl_cons, ih, StdSet.mem_insert, List.mem_cons]
    constructor
    · rintro ((h | h) | ⟨r', hr', h⟩)
      · exact Or.inr ⟨r, Or.inl rfl, h.symm⟩
      · exact Or.inl h
      · exact Or.inr ⟨r', Or.inr hr', h⟩
    · rintro (h | ⟨r', hr' | hr', h⟩)
      · exact Or.inl (Or.inr h)
      · subst hr'
        exact Or.inl (Or.inl h.symm)
      · exact Or.inr ⟨r', hr', h⟩

theorem foldl_insert_sorted (f : String → String) (rs : List String) :
    ∀ acc : List String, acc.Sorted (· < ·) →
      (rs.foldl (fun acc r => StdSet.insert (f r) acc) acc).Sorted (· < ·) := by
  induction rs with
  | nil => intro acc h; exact h
  | cons r rs ih =>
    intro acc h
    exact ih _ (StdSet.sorted_insert _ _ h)

theorem mem_normalizedSet (xds : XdsResourceIdentifier) (node : ContextParams)
    (o : SubscriptionOptions) (rs : List String) (n : String) :
    n ∈ normalizedSet xds node o rs ↔ ∃ r ∈ rs, normalizeName xds node o r = n := by
  unfold normalizedSet
  rw [foldl_insert_mem (normalizeName xds node o) rs [] n]
  simp

theorem sorted_normalizedSet (xds : XdsResourceIdentifier) (node : ContextParams)
    (o : SubscriptionOptions) (rs : List String) :
    (normalizedSet xds node o rs).Sorted (· < ·) :=
  foldl_insert_sorted (normalizeName xds node o) rs [] List.sorted_nil

theorem normalizedSet_congr (xds : XdsResourceIdentifier) (node : ContextParams)
    (o : SubscriptionOptions) (rs rs' : List String) (h : ∀ n, n ∈ rs ↔ n ∈ rs') :
    normalizedSet xds node o rs = normalizedSet xds node o rs' := by
  apply StdSet.eq_of_sorted_of_mem_iff (sorted_normalizedSet _ _ _ _) (sorted_normalizedSet _ _ _ _)
  intro n
  simp only [mem_normalizedSet]
  constructor
  · rintro ⟨r, hr, e⟩
    exact ⟨r, (h r).1 hr, e⟩
  · rintro ⟨r, hr, e⟩
    exact ⟨r, (h r).2 hr, e⟩

theorem length_normalizedSet_le (xds : XdsResourceIdentifier) (node : ContextParams)
    (o : SubscriptionOptions) (rs : List String) :
    (normalizedSet xds node o rs).length ≤ rs.dedup.length := by
  have hn := (sorted_normalizedSet xds node o rs).nodup
  have hsub : (normalizedSet xds node o rs).toFinset
      ⊆ rs.toFinset.image (normalizeName xds node o) := by
    intro n hn'
    rw [List.mem_toFinset, mem_normalizedSet] at hn'
    obtain ⟨r, hr, e⟩ := hn'
    exact Finset.mem_image.2 ⟨r, List.mem_toFinset.2 hr, e⟩
  calc (normalizedSet xds node o rs).length
      = (normalizedSet xds node o rs).toFinset.card := (List.toFinset_card_of_nodup hn).symm
    _ ≤ (rs.toFinset.image (normalizeName xds node o)).card := Finset.card_le_card hsub
    _ ≤ rs.toFinset.card := Finset.card_image_le
    _ = rs.dedup.length := List.card_toFinset rs

theorem normalizeName_of_not_xdstp (xds : XdsResourceIdentifier) (node : ContextParams)
    (o : SubscriptionOptions) (n : String) (h : xds.hasXdsTpScheme n = false) :
    normalizeName xds node o n = n := by
  simp [normalizeName, h]

end GrpcMuxWatchImpl
end Config
end Envoy

namespace Envoy
namespace Config

open GrpcMuxImpl GrpcMuxWatchImpl

/-! ## Watch registry -/

theorem runWatchOps_node_context (xds : XdsResourceIdentifier) (ops : List WatchOp) :
    ∀ s : GrpcMuxImpl, (runWatchOps xds ops s).node_context_ = s.node_context_ := by
  induction ops with
  | nil => intro s; rfl
  | cons op ops ih =>
    intro s
    show (runWatchOps xds ops (watchStep xds s op)).node_context_ = _
    rw [ih]
    cases op with
    | addWatch t rs cb dec o => exact construct_node_context xds s rs cb dec t o
    | update w rs => exact update_node_context xds s w rs
    | release w => exact destroy_node_context s w

theorem WatchInv.live_of_obj {xds : XdsResourceIdentifier} {s : GrpcMuxImpl}
    {g : Nat × List LiveWatch} (inv : WatchInv xds s g) {w : WatchId} {obj : GrpcMuxWatchImpl}
    (h : s.watch_objs_ w = some obj) :
    ∃ lw ∈ g.2, lw.id = w ∧ lw.type_url = obj.type_url_ ∧
      obj.resources_ = normalizedSet xds s.node_context_ lw.options lw.resources := by
  obtain ⟨lw, hlw, hid⟩ := inv.obj_live w obj h
  obtain ⟨obj0, h0, h1, _, h3⟩ := inv.live_obj lw hlw
  rw [hid, h] at h0
  cases h0
  exact ⟨lw, hlw, hid, h1.symm, h3⟩

/-- C1: after any sequence of watch creations, updates and handle releases on a new
multiplexer, the registry of a type holds exactly the live watches of that type,
each once, and the resource names a request is built from (the stored names of
the watches of the registry) are exactly the normalized names of the
collections last given to the live watches of the type. -/
theorem registry_holds_exactly_live_watches (xds : XdsResourceIdentifier)
    (node : ContextParams) (ops : List WatchOp) (t : String) :
    ((runWatchOps xds ops (GrpcMuxImpl.new node)).watchesOf t).Nodup ∧
    (∀ w, w ∈ (runWatchOps xds ops (GrpcMuxImpl.new node)).watchesOf t ↔
      ∃ lw ∈ liveWatches ops, lw.id = w ∧ lw.type_url = t) ∧
    (∀ n, n ∈ (runWatchOps xds ops (GrpcMuxImpl.new node)).requestResources t ↔
      ∃ lw ∈ liveWatches ops, lw.type_url = t ∧
        ∃ r ∈ lw.resources, normalizeName xds node lw.options r = n) := by
  have inv := WatchInv.reachable xds node ops
  have hnode : (runWatchOps xds ops (GrpcMuxImpl.new node)).node_context_ = node :=
    runWatchOps_node_context xds ops _
  have hmem : ∀ w, w ∈ (runWatchOps xds ops (GrpcMuxImpl.new node)).watchesOf t ↔
      ∃ lw ∈ liveWatches ops, lw.id = w ∧ lw.type_url = t := by
    intro w
    rw [inv.reg_mem t w]
    constructor
    · rintro ⟨obj, hobj, ht⟩
      obtain ⟨lw, hlw, hid, hty, _⟩ := inv.live_of_obj hobj
      exact ⟨lw, hlw, hid, hty.trans ht⟩
    · rintro ⟨lw, hlw, hid, ht⟩
      obtain ⟨obj, h0, h1, _⟩ := inv.live_obj lw hlw
      exact ⟨obj, hid ▸ h0, h1.trans ht⟩
  refine ⟨inv.reg_nodup t, hmem, ?_⟩
  intro n
  simp only [requestResources, List.mem_flatMap]
  constructor
  · rintro ⟨w, hw, hn⟩
    obtain ⟨lw, hlw, hid, ht⟩ := (hmem w).1 hw
    obtain ⟨obj, h0, _, _, h3⟩ := inv.live_obj lw hlw
    rw [← hid] at hn
    simp only [storedNames, h0, h3, hnode, mem_normalizedSet] at hn
    exact ⟨lw, hlw, ht, hn⟩
  · rintro ⟨lw, hlw, ht, hn⟩
    obtain ⟨obj, h0, _, _, h3⟩ := inv.live_obj lw hlw
    refine ⟨lw.id, (hmem lw.id).2 ⟨lw, hlw, rfl, ht⟩, ?_⟩
    simp only [storedNames, h0, h3, hnode, mem_normalizedSet]
    exact hn

end Config
end Envoy

namespace Envoy
namespace Config

open GrpcMuxImpl GrpcMuxWatchImpl

/-- C2: `update` on a live watch of a multiplexer reached by watch operations. The
watch leaves the registry; if its old stored set is non-empty,
`queueDiscoveryRequest` is called for its type and finds the registry without
the watch; the stored set becomes the normalized new names and the watch goes
to the front of the registry; `queueDiscoveryRequest` is then called once more
and finds the watch in front with its new names. So two calls are made when
the old set is non-empty and one when it is empty, whatever the new
collection. -/
theorem update_erases_queues_reinserts_queues (xds : XdsResourceIdentifier)
    (node : ContextParams) (ops : List WatchOp) (w : WatchId) (obj : GrpcMuxWatchImpl)
    (rs : List String)
    (h : (runWatchOps xds ops (GrpcMuxImpl.new node)).watch_objs_ w = some obj) :
    w ∈ (runWatchOps xds ops (GrpcMuxImpl.new node)).watchesOf obj.type_url_ ∧
    w ∉ ((runWatchOps xds ops (GrpcMuxImpl.new node)).watchesOf obj.type_url_).erase w ∧
    (GrpcMuxWatchImpl.update xds w rs (runWatchOps xds ops (GrpcMuxImpl.new node))).queue_calls_
      = (runWatchOps xds ops (GrpcMuxImpl.new node)).queue_calls_
        ++ (if obj.resources_ ≠ [] then
              [⟨obj.type_url_,
                (((runWatchOps xds ops (GrpcMuxImpl.new node)).watchesOf obj.type_url_).erase w).map
                  (fun x => (x, (runWatchOps xds ops (GrpcMuxImpl.new node)).storedNames x))⟩]
            else [])
        ++ [⟨obj.type_url_,
              (w, normalizedSet xds node obj.subscription_options_ rs) ::
                (((runWatchOps xds ops (GrpcMuxImpl.new node)).watchesOf obj.type_url_).erase w).map
                  (fun x => (x, (runWatchOps xds ops (GrpcMuxImpl.new node)).storedNames x))⟩] ∧
    (GrpcMuxWatchImpl.update xds w rs (runWatchOps xds ops (GrpcMuxImpl.new node))).watchesOf
        obj.type_url_
      = w :: ((runWatchOps xds ops (GrpcMuxImpl.new node)).watchesOf obj.type_url_).erase w ∧
    (GrpcMuxWatchImpl.update xds w rs (runWatchOps xds ops (GrpcMuxImpl.new node))).watch_objs_ w
      = some { obj with resources_ := normalizedSet xds node obj.subscription_options_ rs } ∧
    (GrpcMuxWatchImpl.update xds w rs
        (runWatchOps xds ops (GrpcMuxImpl.new node))).queue_calls_.length
      = (runWatchOps xds ops (GrpcMuxImpl.new node)).queue_calls_.length
        + (if obj.resources_ ≠ [] then 2 else 1) := by
  have inv := WatchInv.reachable xds node ops
  have hnode : (runWatchOps xds ops (GrpcMuxImpl.new node)).node_context_ = node :=
    runWatchOps_node_context xds ops _
  generalize runWatchOps xds ops (GrpcMuxImpl.new node) = s at h inv hnode ⊢
  have hin : w ∈ s.watchesOf obj.type_url_ := (inv.reg_mem _ _).2 ⟨obj, h, rfl⟩
  have hout : w ∉ (s.watchesOf obj.type_url_).erase w := (inv.reg_nodup _).not_mem_erase
  have hobjs := update_watch_objs xds s w obj rs h
  have hreg := update_watchesOf xds s w obj rs h obj.type_url_
  rw [if_pos rfl] at hreg
  have hcalls := update_queue_calls xds s w obj rs h
  have hsnap : (GrpcMuxWatchImpl.update xds w rs s).registrySnapshot obj.type_url_
      = (w, normalizedSet xds node obj.subscription_options_ rs) ::
          ((s.watchesOf obj.type_url_).erase w).map (fun x => (x, s.storedNames x)) := by
    simp only [registrySnapshot, hreg, List.map_cons, storedNames, hobjs, Function.update_same,
      hnode]
    congr 1
    apply List.map_congr_left
    intro x hx
    have hne : x ≠ w := fun e => hout (e ▸ hx)
    rw [Function.update_noteq hne]
  rw [hsnap] at hcalls
  refine ⟨hin, hout, hcalls, hreg, ?_, ?_⟩
  · rw [hobjs, Function.update_same, hnode]
  · rw [hcalls]
    by_cases he : obj.resources_ = [] <;> simp [he]

/-- A run of C2: a watch on `b`, `a` is updated to `c`. -/
theorem update_erases_queues_reinserts_queues_witness :
    (0 : WatchId) ∈ (runWatchOps Sample.xds [WatchOp.addWatch "T" ["b", "a"] 0 0 {}]
        (GrpcMuxImpl.new Sample.nodeContext)).watchesOf "T" ∧
    (GrpcMuxWatchImpl.update Sample.xds 0 ["c"]
        (runWatchOps Sample.xds [WatchOp.addWatch "T" ["b", "a"] 0 0 {}]
          (GrpcMuxImpl.new Sample.nodeContext))).queue_calls_
      = [⟨"T", []⟩, ⟨"T", [(0, ["c"])]⟩] ∧
    (GrpcMuxWatchImpl.update Sample.xds 0 ["c"]
        (runWatchOps Sample.xds [WatchOp.addWatch "T" ["b", "a"] 0 0 {}]
          (GrpcMuxImpl.new Sample.nodeContext))).queue_calls_.length = 0 + 2 := by
  have h := update_erases_queues_reinserts_queues Sample.xds Sample.nodeContext
    [WatchOp.addWatch "T" ["b", "a"] 0 0 {}] 0 ⟨["a", "b"], 0, 0, "T", {}⟩ ["c"] (by decide)
  exact ⟨h.1, by decide, h.2.2.2.2.2⟩

end Config
end Envoy

namespace Envoy
namespace Config

open GrpcMuxImpl GrpcMuxWatchImpl

theorem erase_eq_filter_ne {l : List WatchId} (hl : l.Nodup) (w : WatchId) :
    l.erase w = l.filter (fun x => decide (x ≠ w)) := by
  rw [hl.erase_eq_filter w]
  apply List.filter_congr
  intro x _
  by_cases hx : x = w <;> simp [hx]

/-- C3: releasing the handle of a live watch of a multiplexer reached by watch
operations removes the watch from the registry of its type, the other watches
staying in their order, leaves the other registries alone, ends the object, and
calls `queueDiscoveryRequest` for the type of the watch once, on the registry
without the watch, when its stored set is non-empty, and not at all when the
stored set is empty. -/
theorem release_removes_and_queues_iff_nonempty (xds : XdsResourceIdentifier)
    (node : ContextParams) (ops : List WatchOp) (w : WatchId) (obj : GrpcMuxWatchImpl)
    (h : (runWatchOps xds ops (GrpcMuxImpl.new node)).watch_objs_ w = some obj) :
    w ∈ (runWatchOps xds ops (GrpcMuxImpl.new node)).watchesOf obj.type_url_ ∧
    (GrpcMuxWatchImpl.destroy w (runWatchOps xds ops (GrpcMuxImpl.new node))).watchesOf
        obj.type_url_
      = ((runWatchOps xds ops (GrpcMuxImpl.new node)).watchesOf obj.type_url_).filter
          (fun x => decide (x ≠ w)) ∧
    (∀ t, t ≠ obj.type_url_ →
      (GrpcMuxWatchImpl.destroy w (runWatchOps xds ops (GrpcMuxImpl.new node))).watchesOf t
        = (runWatchOps xds ops (GrpcMuxImpl.new node)).watchesOf t) ∧
    (GrpcMuxWatchImpl.destroy w (runWatchOps xds ops (GrpcMuxImpl.new node))).watch_objs_ w
      = none ∧
    (GrpcMuxWatchImpl.destroy w (runWatchOps xds ops (GrpcMuxImpl.new node))).queue_calls_
      = (runWatchOps xds ops (GrpcMuxImpl.new node)).queue_calls_
        ++ (if obj.resources_ ≠ [] then
              [⟨obj.type_url_,
                (((runWatchOps xds ops (GrpcMuxImpl.new node)).watchesOf obj.type_url_).filter
                    (fun x => decide (x ≠ w))).map
                  (fun x => (x, (runWatchOps xds ops (GrpcMuxImpl.new node)).storedNames x))⟩]
            else []) ∧
    ((GrpcMuxWatchImpl.destroy w
          (runWatchOps xds ops (GrpcMuxImpl.new node))).queue_calls_.length
        = (runWatchOps xds ops (GrpcMuxImpl.new node)).queue_calls_.length + 1
      ↔ obj.resources_ ≠ []) ∧
    ((GrpcMuxWatchImpl.destroy w
          (runWatchOps xds ops (GrpcMuxImpl.new node))).queue_calls_.length
        = (runWatchOps xds ops (GrpcMuxImpl.new node)).queue_calls_.length
      ↔ obj.resources_ = []) := by
  have inv := WatchInv.reachable xds node ops
  generalize runWatchOps xds ops (GrpcMuxImpl.new node) = s at h inv ⊢
  have hin : w ∈ s.watchesOf obj.type_url_ := (inv.reg_mem _ _).2 ⟨obj, h, rfl⟩
  have herase : (s.watchesOf obj.type_url_).erase w
      = (s.watchesOf obj.type_url_).filter (fun x => decide (x ≠ w)) :=
    erase_eq_filter_ne (inv.reg_nodup _) w
  have hreg := destroy_watchesOf s w obj h
  have hcalls := destroy_queue_calls s w obj h
  rw [herase] at hcalls
  refine ⟨hin, ?_, ?_, ?_, hcalls, ?_, ?_⟩
  · rw [hreg, if_pos rfl, herase]
  · intro t ht
    rw [hreg, if_neg ht]
  · rw [destroy_watch_objs s w obj h, Function.update_same]
  · rw [hcalls]
    by_cases he : obj.resources_ = [] <;> simp [he]
  · rw [hcalls]
    by_cases he : obj.resources_ = [] <;> simp [he]

/-- A run of C3: of two watches of one type, the older one, which stores `a`, is
released. -/
theorem release_removes_and_queues_iff_nonempty_witness :
    (GrpcMuxWatchImpl.destroy 0
        (runWatchOps Sample.xds
          [WatchOp.addWatch "T" ["a"] 0 0 {}, WatchOp.addWatch "T" ["b"] 1 1 {}]
          (GrpcMuxImpl.new Sample.nodeContext))).watchesOf "T" = [1] ∧
    (GrpcMuxWatchImpl.destroy 0
        (runWatchOps Sample.xds
          [WatchOp.addWatch "T" ["a"] 0 0 {}, WatchOp.addWatch "T" ["b"] 1 1 {}]
          (GrpcMuxImpl.new Sample.nodeContext))).queue_calls_ = [⟨"T", [(1, ["b"])]⟩] := by
  have h := release_removes_and_queues_iff_nonempty Sample.xds Sample.nodeContext
    [WatchOp.addWatch "T" ["a"] 0 0 {}, WatchOp.addWatch "T" ["b"] 1 1 {}] 0
    ⟨["a"], 0, 0, "T", {}⟩ (by decide)
  exact ⟨h.2.1.trans (by decide), h.2.2.2.2.1.trans (by decide)⟩

/-- C4: on a multiplexer reached by watch operations, a watch that has just been
created or updated is the first element of the registry of its type, and behind
it stand the other watches of the type in the order they had. -/
theorem registry_most_recently_updated_first (xds : XdsResourceIdentifier)
    (node : ContextParams) (ops : List WatchOp) (rs : List String) (cb dec : Nat) (t : String)
    (o : SubscriptionOptions) :
    ((GrpcMuxWatchImpl.construct xds rs cb dec t o
          (runWatchOps xds ops (GrpcMuxImpl.new node))).watchesOf t
        = (runWatchOps xds ops (GrpcMuxImpl.new node)).next_watch_ ::
            (runWatchOps xds ops (GrpcMuxImpl.new node)).watchesOf t ∧
      (runWatchOps xds ops (GrpcMuxImpl.new node)).next_watch_ ∉
        (runWatchOps xds ops (GrpcMuxImpl.new node)).watchesOf t ∧
      (GrpcMuxWatchImpl.construct xds rs cb dec t o
          (runWatchOps xds ops (GrpcMuxImpl.new node))).watch_objs_
          (runWatchOps xds ops (GrpcMuxImpl.new node)).next_watch_
        = some ⟨normalizedSet xds node o rs, cb, dec, t, o⟩) ∧
    (∀ (w : WatchId) (obj : GrpcMuxWatchImpl),
      (runWatchOps xds ops (GrpcMuxImpl.new node)).watch_objs_ w = some obj →
      (GrpcMuxWatchImpl.update xds w rs (runWatchOps xds ops (GrpcMuxImpl.new node))).watchesOf
          obj.type_url_
        = w :: ((runWatchOps xds ops (GrpcMuxImpl.new node)).watchesOf obj.type_url_).filter
            (fun x => decide (x ≠ w))) := by
  have inv := WatchInv.reachable xds node ops
  have hnode : (runWatchOps xds ops (GrpcMuxImpl.new node)).node_context_ = node :=
    runWatchOps_node_context xds ops _
  generalize runWatchOps xds ops (GrpcMuxImpl.new node) = s at inv hnode ⊢
  refine ⟨⟨?_, ?_, ?_⟩, ?_⟩
  · rw [construct_watchesOf, if_pos rfl]
  · intro hmem
    obtain ⟨obj', hobj', _⟩ := (inv.reg_mem t _).1 hmem
    obtain ⟨lw, hlw, hid⟩ := inv.obj_live _ _ hobj'
    have hlt := inv.ids_lt lw hlw
    rw [hid, inv.next_eq] at hlt
    exact Nat.lt_irrefl _ hlt
  · rw [construct_watch_objs, Function.update_same, hnode]
  · intro w obj h
    rw [update_watchesOf xds s w obj rs h, if_pos rfl, erase_eq_filter_ne (inv.reg_nodup _) w]

/-- A run of C4: with watches 0 and 1 of one type, a third watch is created, and
watch 0 is updated. -/
theorem registry_most_recently_updated_first_witness :
    (GrpcMuxWatchImpl.construct Sample.xds ["c"] 2 2 "T" {}
        (runWatchOps Sample.xds
          [WatchOp.addWatch "T" ["a"] 0 0 {}, WatchOp.addWatch "T" ["b"] 1 1 {}]
          (GrpcMuxImpl.new Sample.nodeContext))).watchesOf "T" = [2, 1, 0] ∧
    (GrpcMuxWatchImpl.update Sample.xds 0 ["c"]
        (runWatchOps Sample.xds
          [WatchOp.addWatch "T" ["a"] 0 0 {}, WatchOp.addWatch "T" ["b"] 1 1 {}]
          (GrpcMuxImpl.new Sample.nodeContext))).watchesOf "T" = [0, 1] := by
  have h := registry_most_recently_updated_first Sample.xds Sample.nodeContext
    [WatchOp.addWatch "T" ["a"] 0 0 {}, WatchOp.addWatch "T" ["b"] 1 1 {}] ["c"] 2 2 "T" {}
  exact ⟨h.1.1.trans (by decide),
    (h.2 0 ⟨["a"], 0, 0, "T", {}⟩ (by decide)).trans (by decide)⟩

end Config
end Envoy

namespace Envoy
namespace Config
namespace GrpcMuxImpl

/-! ## Pausing -/

@[simp]
theorem apiStateFor_snd_pausesOf (t t' : String) (s : GrpcMuxImpl) :
    (s.apiStateFor t).2.pausesOf t' = s.pausesOf t' := by
  unfold apiStateFor pausesOf
  cases h : s.api_state_ t
  · by_cases ht : t' = t
    · subst ht
      simp [h, ApiState.new]
    · simp [Function.update_noteq ht]
  · simp

@[simp]
theorem queueDiscoveryRequest_pausesOf (t t' : String) (s : GrpcMuxImpl) :
    (s.queueDiscoveryRequest t).pausesOf t' = s.pausesOf t' := by
  have e1 : ∀ (x : GrpcMuxImpl) (q : List QueueCall),
      ({ x with queue_calls_ := q } : GrpcMuxImpl).pausesOf t' = x.pausesOf t' := fun _ _ => rfl
  have e2 : ∀ (x : GrpcMuxImpl) (q : List String),
      ({ x with request_queue_ := q } : GrpcMuxImpl).pausesOf t' = x.pausesOf t' := fun _ _ => rfl
  unfold queueDiscoveryRequest
  simp only []
  split_ifs
  · rw [setApiState_pausesOf]
    by_cases ht : t' = t
    · subst ht
      simp [e1]
    · simp [ht, e1]
  · simp [e1]
  · rw [e2]
    simp [e1]

theorem pausedOf_eq (s : GrpcMuxImpl) (t : String) :
    s.pausedOf t = decide (0 < s.pausesOf t) := by
  simp [pausedOf, ApiState.paused]

theorem pause_single_pausesOf (s : GrpcMuxImpl) (t : String) :
    (s.pause [t]).pausesOf t = (s.pausesOf t + 1) % 2 ^ 32 := by
  simp [pause, setApiState_pausesOf]

theorem resume_single_none (s : GrpcMuxImpl) (t : String) (h : s.pausesOf t = 0) :
    s.resume [t] = none := by
  simp [resume, resumeOne, ApiState.paused, h]

theorem resume_single_some (s : GrpcMuxImpl) (t : String) (h : 0 < s.pausesOf t) :
    ∃ s1, s.resume [t] = some s1 ∧ s1.pausesOf t = (s.pausesOf t + (2 ^ 32 - 1)) % 2 ^ 32 := by
  have hp : (s.apiStateFor t).1.paused = true := by simp [ApiState.paused, h]
  simp only [resume, List.foldlM_cons, List.foldlM_nil, resumeOne, hp, if_true]
  split_ifs
  · refine ⟨_, rfl, ?_⟩
    simp [setApiState_pausesOf]
  · refine ⟨_, rfl, ?_⟩
    simp [setApiState_pausesOf]

end GrpcMuxImpl
end Config
end Envoy

namespace Envoy
namespace Config

open GrpcMuxImpl

theorem PauseOp.releasesNeverOutnumber_prefix :
    ∀ (pre suf : List PauseOp) (c : Nat),
      PauseOp.releasesNeverOutnumber (pre ++ suf) c = true →
        PauseOp.releasesNeverOutnumber pre c = true := by
  intro pre
  induction pre with
  | nil => intro suf c _; rfl
  | cons op pre ih =>
    intro suf c h
    cases op with
    | pause => exact ih suf (c + 1) h
    | release =>
      simp only [List.cons_append, PauseOp.releasesNeverOutnumber, Bool.and_eq_true] at h ⊢
      exact ⟨h.1, ih suf (c - 1) h.2⟩

theorem GrpcMuxImpl.stepsExact_prefix (t : String) :
    ∀ (pre suf : List PauseOp) (s : GrpcMuxImpl),
      stepsExact t (pre ++ suf) s = true → stepsExact t pre s = true := by
  intro pre
  induction pre with
  | nil => intro suf s _; rfl
  | cons op pre ih =>
    intro suf s h
    simp only [List.cons_append, stepsExact] at h ⊢
    cases hs : s.pauseStep t op with
    | none => rfl
    | some s1 =>
      simp only [hs, Bool.and_eq_true] at h ⊢
      exact ⟨h.1, ih suf s1 h.2⟩

/-- Along a sequence of pause events in which no release outnumbers the pauses and
every step moves the counter by exactly one, no step aborts and the counter is
the number of tokens outstanding. -/
theorem GrpcMuxImpl.runPauseOps_counter (t : String) :
    ∀ (ops : List PauseOp) (s : GrpcMuxImpl) (c : Nat), s.pausesOf t = c →
      PauseOp.releasesNeverOutnumber ops c = true → stepsExact t ops s = true →
      ∃ s1, runPauseOps t ops s = some s1 ∧
        s1.pausesOf t + PauseOp.releases ops = c + PauseOp.pauses ops := by
  intro ops
  induction ops with
  | nil =>
    intro s c hc _ _
    exact ⟨s, rfl, by simp [PauseOp.releases, PauseOp.pauses, hc]⟩
  | cons op ops ih =>
    intro s c hc hrel hex
    cases op with
    | pause =>
      simp only [stepsExact, pauseStep, Bool.and_eq_true, decide_eq_true_eq] at hex
      obtain ⟨s2, hrun, hcount⟩ := ih (s.pause [t]) (c + 1) (by rw [hex.1, hc]) hrel hex.2
      refine ⟨s2, by simpa [runPauseOps, pauseStep] using hrun, ?_⟩
      simp only [PauseOp.releases, PauseOp.pauses, List.count_cons] at hcount ⊢
      simp
      omega
    | release =>
      simp only [PauseOp.releasesNeverOutnumber, Bool.and_eq_true, decide_eq_true_eq] at hrel
      cases c with
      | zero => exact absurd hrel.1 (Nat.lt_irrefl 0)
      | succ c =>
        replace hrel := hrel.2
        obtain ⟨s1, hs1, hp1⟩ := resume_single_some s t (by rw [hc]; exact Nat.succ_pos c)
        simp only [stepsExact, pauseStep, hs1, Bool.and_eq_true, decide_eq_true_eq] at hex
        obtain ⟨s2, hrun, hcount⟩ := ih s1 c (by have := hex.1; omega) hrel hex.2
        refine ⟨s2, by simpa [runPauseOps, pauseStep, hs1] using hrun, ?_⟩
        simp only [PauseOp.releases, PauseOp.pauses, List.count_cons] at hcount ⊢
        simp
        omega

/-- C5: `paused()` is true exactly when the counter `pauses_` is positive; a new
`ApiState` has counter zero, is not paused and has `pending_` false; and when
every pause increments the counter by one, every release decrements it by one
and releases never outnumber pauses, then at every point of the sequence no
release has aborted on an underflow, the counter of the type is the number of
pauses minus the number of releases so far, and the type is paused exactly when
more pauses than releases have happened. -/
theorem paused_iff_pauses_outstanding (node : ContextParams) (t : String) :
    (∀ a : ApiState, a.paused = true ↔ 0 < a.pauses_) ∧
    (ApiState.new.pauses_ = 0 ∧ ApiState.new.paused = false ∧ ApiState.new.pending_ = false) ∧
    (∀ ops : List PauseOp,
      PauseOp.releasesNeverOutnumber ops 0 = true →
      (GrpcMuxImpl.new node).stepsExact t ops = true →
      ∀ pre, pre <+: ops →
        ∃ s, (GrpcMuxImpl.new node).runPauseOps t pre = some s ∧
          PauseOp.releases pre ≤ PauseOp.pauses pre ∧
          ((s.pausesOf t : Int) = (PauseOp.pauses pre : Int) - (PauseOp.releases pre : Int)) ∧
          (s.pausedOf t = true ↔ PauseOp.releases pre < PauseOp.pauses pre)) := by
  refine ⟨?_, ⟨rfl, rfl, rfl⟩, ?_⟩
  · intro a
    simp [ApiState.paused]
  · rintro ops hrel hexact pre ⟨suf, rfl⟩
    obtain ⟨s, hrun, hcount⟩ := GrpcMuxImpl.runPauseOps_counter t pre (GrpcMuxImpl.new node) 0 rfl
      (PauseOp.releasesNeverOutnumber_prefix pre suf 0 hrel)
      (GrpcMuxImpl.stepsExact_prefix t pre suf _ hexact)
    refine ⟨s, hrun, by omega, by omega, ?_⟩
    rw [pausedOf_eq, decide_eq_true_eq]
    omega

/-- A run of C5: two pauses, one release, one more pause and two releases. -/
theorem paused_iff_pauses_outstanding_witness :
    ∃ s, (GrpcMuxImpl.new Sample.nodeContext).runPauseOps "T"
        [PauseOp.pause, PauseOp.pause, PauseOp.release] = some s ∧
      ((s.pausesOf "T" : Int) = 2 - 1) ∧ s.pausedOf "T" = true := by
  have h := (paused_iff_pauses_outstanding Sample.nodeContext "T").2.2
    [PauseOp.pause, PauseOp.pause, PauseOp.release, PauseOp.pause, PauseOp.release,
      PauseOp.release] (by decide) (by decide)
    [PauseOp.pause, PauseOp.pause, PauseOp.release] ⟨_, rfl⟩
  obtain ⟨s, h1, _, h3, h4⟩ := h
  exact ⟨s, h1, h3, h4.2 (by decide)⟩

end Config
end Envoy

namespace Envoy
namespace Config

open GrpcMuxImpl GrpcMuxWatchImpl

/-! ## Heartbeats -/

/-- C6: `isHeartbeatResource` is true exactly for a resource that carries no payload
and whose version is the `version_info` of the current request of the type; a
resource with a payload is never a heartbeat, whatever its version, and a
resource without payload is a heartbeat exactly when its version is that of the
current request. -/
theorem isHeartbeatResource_iff (s : GrpcMuxImpl) (type_url : String)
    (resource : DecodedResource) :
    ((s.isHeartbeatResource type_url resource).1 = true ↔
      resource.hasResource = false ∧
        resource.version = (s.apiStateFor type_url).1.request_.version_info) ∧
    (s.isHeartbeatResource type_url ⟨true, resource.version⟩).1 = false ∧
    (s.isHeartbeatResource type_url ⟨false, resource.version⟩).1
      = decide (resource.version = (s.apiStateFor type_url).1.request_.version_info) := by
  refine ⟨?_, ?_, ?_⟩
  · cases hr : resource.hasResource <;> simp [isHeartbeatResource, hr]
  · simp [isHeartbeatResource]
  · simp [isHeartbeatResource]

/-! ## Stored names -/

theorem construct_storedNames (xds : XdsResourceIdentifier) (s : GrpcMuxImpl)
    (rs : List String) (cb dec : Nat) (t : String) (o : SubscriptionOptions) :
    (GrpcMuxWatchImpl.construct xds rs cb dec t o s).storedNames s.next_watch_
      = normalizedSet xds s.node_context_ o rs := by
  simp [storedNames, construct_watch_objs]

theorem update_storedNames (xds : XdsResourceIdentifier) (s : GrpcMuxImpl)
    (w : WatchId) (obj : GrpcMuxWatchImpl) (rs : List String) (h : s.watch_objs_ w = some obj) :
    (GrpcMuxWatchImpl.update xds w rs s).storedNames w
      = normalizedSet xds s.node_context_ obj.subscription_options_ rs := by
  simp [storedNames, update_watch_objs xds s w obj rs h]

/-- C7: when no name of the input collection has the xdstp scheme, the names stored
by a watch after its creation, and after an update, are exactly the input
names, whatever the subscription options and whatever the watch stored
before. -/
theorem non_urn_names_stored_unchanged (xds : XdsResourceIdentifier) (s : GrpcMuxImpl)
    (rs : List String) (hrs : ∀ n ∈ rs, xds.hasXdsTpScheme n = false)
    (cb dec : Nat) (t : String) (o : SubscriptionOptions) :
    (∀ n, n ∈ (GrpcMuxWatchImpl.construct xds rs cb dec t o s).storedNames s.next_watch_
      ↔ n ∈ rs) ∧
    (∀ (w : WatchId) (obj : GrpcMuxWatchImpl), s.watch_objs_ w = some obj →
      ∀ n, n ∈ (GrpcMuxWatchImpl.update xds w rs s).storedNames w ↔ n ∈ rs) := by
  have key : ∀ (o' : SubscriptionOptions) (n : String),
      n ∈ normalizedSet xds s.node_context_ o' rs ↔ n ∈ rs := by
    intro o' n
    rw [mem_normalizedSet]
    constructor
    · rintro ⟨r, hr, e⟩
      rw [normalizeName_of_not_xdstp xds _ o' r (hrs r hr)] at e
      exact e ▸ hr
    · intro hn
      exact ⟨n, hn, normalizeName_of_not_xdstp xds _ o' n (hrs n hn)⟩
  constructor
  · intro n
    rw [construct_storedNames, key]
  · intro w obj h n
    rw [update_storedNames xds s w obj rs h, key]

/-- A run of C7: plain names given to a new watch and to a watch that stored `z`
and asks for node context parameters. -/
theorem non_urn_names_stored_unchanged_witness :
    (GrpcMuxWatchImpl.construct Sample.xds ["b", "a"] 0 0 "T" ⟨true⟩
        (runWatchOps Sample.xds [WatchOp.addWatch "T" ["z"] 0 0 ⟨true⟩]
          (GrpcMuxImpl.new Sample.nodeContext))).storedNames 1 = ["a", "b"] ∧
    (∀ n, n ∈ (GrpcMuxWatchImpl.update Sample.xds 0 ["b", "a"]
        (runWatchOps Sample.xds [WatchOp.addWatch "T" ["z"] 0 0 ⟨true⟩]
          (GrpcMuxImpl.new Sample.nodeContext))).storedNames 0 ↔ n ∈ ["b", "a"]) := by
  have h := non_urn_names_stored_unchanged Sample.xds
    (runWatchOps Sample.xds [WatchOp.addWatch "T" ["z"] 0 0 ⟨true⟩]
      (GrpcMuxImpl.new Sample.nodeContext))
    ["b", "a"] (by decide) 0 0 "T" ⟨true⟩
  exact ⟨by decide, h.2 0 ⟨["z"], 0, 0, "T", ⟨true⟩⟩ (by decide)⟩

/-- C9: the names stored by a watch after its creation, and after an update, are
strictly ascending in the lexicographic order, hence free of duplicates; two
input collections with the same names, in whatever order, leave the same
stored sequence; and the stored names are at most as many as the distinct input
names. -/
theorem stored_names_deterministic_order (xds : XdsResourceIdentifier) (s : GrpcMuxImpl)
    (rs rs' : List String) (hsame : ∀ n, n ∈ rs ↔ n ∈ rs')
    (cb dec : Nat) (t : String) (o : SubscriptionOptions) :
    (((GrpcMuxWatchImpl.construct xds rs cb dec t o s).storedNames s.next_watch_).Sorted (· < ·)
      ∧ ((GrpcMuxWatchImpl.construct xds rs cb dec t o s).storedNames s.next_watch_).Nodup
      ∧ (GrpcMuxWatchImpl.construct xds rs cb dec t o s).storedNames s.next_watch_
          = (GrpcMuxWatchImpl.construct xds rs' cb dec t o s).storedNames s.next_watch_
      ∧ ((GrpcMuxWatchImpl.construct xds rs cb dec t o s).storedNames s.next_watch_).length
          ≤ rs.dedup.length) ∧
    (∀ (w : WatchId) (obj : GrpcMuxWatchImpl), s.watch_objs_ w = some obj →
      ((GrpcMuxWatchImpl.update xds w rs s).storedNames w).Sorted (· < ·)
      ∧ ((GrpcMuxWatchImpl.update xds w rs s).storedNames w).Nodup
      ∧ (GrpcMuxWatchImpl.update xds w rs s).storedNames w
          = (GrpcMuxWatchImpl.update xds w rs' s).storedNames w
      ∧ ((GrpcMuxWatchImpl.update xds w rs s).storedNames w).length ≤ rs.dedup.length) := by
  constructor
  · simp only [construct_storedNames]
    exact ⟨sorted_normalizedSet _ _ _ _, (sorted_normalizedSet _ _ _ _).nodup,
      normalizedSet_congr _ _ _ _ _ hsame, length_normalizedSet_le _ _ _ _⟩
  · intro w obj h
    simp only [update_storedNames xds s w obj _ h]
    exact ⟨sorted_normalizedSet _ _ _ _, (sorted_normalizedSet _ _ _ _).nodup,
      normalizedSet_congr _ _ _ _ _ hsame, length_normalizedSet_le _ _ _ _⟩

/-- A run of C9: the same three names, one of them twice, in two orders. -/
theorem stored_names_deterministic_order_witness :
    (GrpcMuxWatchImpl.update Sample.xds 0 ["c", "a", "b", "a"]
        (runWatchOps Sample.xds [WatchOp.addWatch "T" ["z"] 0 0 {}]
          (GrpcMuxImpl.new Sample.nodeContext))).storedNames 0 = ["a", "b", "c"] ∧
    (GrpcMuxWatchImpl.update Sample.xds 0 ["c", "a", "b", "a"]
        (runWatchOps Sample.xds [WatchOp.addWatch "T" ["z"] 0 0 {}]
          (GrpcMuxImpl.new Sample.nodeContext))).storedNames 0
      = (GrpcMuxWatchImpl.update Sample.xds 0 ["b", "c", "a"]
        (runWatchOps Sample.xds [WatchOp.addWatch "T" ["z"] 0 0 {}]
          (GrpcMuxImpl.new Sample.nodeContext))).storedNames 0 := by
  have h := stored_names_deterministic_order Sample.xds
    (runWatchOps Sample.xds [WatchOp.addWatch "T" ["z"] 0 0 {}]
      (GrpcMuxImpl.new Sample.nodeContext))
    ["c", "a", "b", "a"] ["b", "c", "a"] (by intro n; simp; tauto) 0 0 "T" {}
  exact ⟨by decide, (h.2 0 ⟨["z"], 0, 0, "T", {}⟩ (by decide)).2.2.1⟩

end Config

namespace Server
namespace Utility

/-- C10: `assertExclusiveLogFormatMethod` throws the exception with its message
exactly when the CLI log format is set and the application log config has a
log format, and returns normally in the three other combinations. -/
theorem assertExclusiveLogFormatMethod_throws_iff_both (options : Options)
    (application_log_config : ApplicationLogConfig) :
    (assertExclusiveLogFormatMethod options application_log_config
        = Except.error
          ⟨"Only one of ApplicationLogConfig.log_format or CLI option --log-format can be specified."⟩
      ↔ (options.logFormatSet = true ∧ application_log_config.has_log_format = true)) ∧
    (assertExclusiveLogFormatMethod options application_log_config = Except.ok ()
      ↔ ¬ (options.logFormatSet = true ∧ application_log_config.has_log_format = true)) := by
  obtain ⟨a⟩ := options
  obtain ⟨b⟩ := application_log_config
  cases a <;> cases b <;>
    simp [assertExclusiveLogFormatMethod, throw, throwThe, MonadExceptOf.throw, pure, Except.pure]

end Utility
end Server
end Envoy

namespace Envoy
namespace Config

open GrpcMuxImpl GrpcMuxWatchImpl

/-! ## Normalization of names -/

end Config

namespace ProtoMap

/-! ### Maps in canonical form -/

end ProtoMap

namespace Config

open GrpcMuxImpl GrpcMuxWatchImpl

/-! ### The merge of node context parameters -/

namespace XdsUrn

end XdsUrn

/-! ### Idempotence -/

end Config
end Envoy

namespace Envoy
namespace Extensions
namespace Formatter

open CELFormatter

/-! ## CEL formatter -/

theorem StdString.substr_zero_data (s : String) (count : Nat) :
    (StdString.substr s 0 count).data = s.data.take count := rfl

theorem CELFormatter.format_of_value {CelValue : Type} (expr : Expr CelValue)
    (self : CELFormatter) (v : CelValue) (h : expr.IsError v = false) :
    format expr self (some v)
      = match self.max_length_ with
        | some max_length => some (StdString.substr (expr.print v) 0 max_length)
        | none => some (expr.print v) := by
  simp [format, h]

/-- C11: `format` returns no value exactly when the evaluation produced no result or
an error value. For any other value with printed form `p` it returns, when
`max_length_` is set to `n`, the first `n` characters of `p` (a prefix of `p`
of length `min |p| n`, the empty string for `n = 0`), and `p` itself when
`max_length_` is not set. `formatValue` returns the null value exactly when
`format` returns no value, and else the string value of the output of
`format`. -/
theorem format_none_iff_and_truncates {CelValue : Type} (expr : Expr CelValue)
    (self : CELFormatter) (eval_status : Option CelValue) :
    (format expr self eval_status = none ↔
      eval_status = none ∨ ∃ v, eval_status = some v ∧ expr.IsError v = true) ∧
    (∀ v, eval_status = some v → expr.IsError v = false →
      (∀ n, self.max_length_ = some n →
        ∃ out, format expr self eval_status = some out ∧
          out.data = (expr.print v).data.take n ∧
          out.data <+: (expr.print v).data ∧
          out.length = min (expr.print v).length n) ∧
      (self.max_length_ = some 0 → format expr self eval_status = some "") ∧
      (self.max_length_ = none → format expr self eval_status = some (expr.print v))) ∧
    (formatValue expr self eval_status = ProtobufWkt.Value.nullValue ↔
      format expr self eval_status = none) ∧
    (∀ out, format expr self eval_status = some out →
      formatValue expr self eval_status = ProtobufWkt.Value.stringValue out) := by
  refine ⟨?_, ?_, ?_, ?_⟩
  · cases eval_status with
    | none => simp [format]
    | some v =>
      cases hv : expr.IsError v with
      | true => simp [format, hv]
      | false =>
        rw [format_of_value expr self v hv]
        cases self.max_length_ <;> simp [hv]
  · intro v hv herr
    subst hv
    rw [format_of_value expr self v herr]
    refine ⟨?_, ?_, ?_⟩
    · intro n hn
      rw [hn]
      refine ⟨_, rfl, rfl, ?_, ?_⟩
      · rw [StdString.substr_zero_data]
        exact List.take_prefix n _
      · show (StdString.substr (expr.print v) 0 n).data.length = _
        rw [StdString.substr_zero_data, List.length_take, Nat.min_comm]
        rfl
    · intro h0
      rw [h0]
      rfl
    · intro hnone
      rw [hnone]
  · unfold formatValue
    cases format expr self eval_status <;> simp
  · intro out hout
    unfold formatValue
    rw [hout]

/-- A run of C11: the value printed `hello` with `max_length_` 3 and 0, and without
`max_length_`; the error value; no result. -/
theorem format_none_iff_and_truncates_witness :
    format Sample.expr ⟨some 3⟩ (some (Sample.CelValue.value "hello")) = some "hel" ∧
    formatValue Sample.expr ⟨some 3⟩ (some (Sample.CelValue.value "hello"))
      = ProtobufWkt.Value.stringValue "hel" ∧
    format Sample.expr ⟨some 0⟩ (some (Sample.CelValue.value "hello")) = some "" ∧
    format Sample.expr ⟨none⟩ (some (Sample.CelValue.value "hello")) = some "hello" ∧
    format Sample.expr ⟨some 3⟩ (some Sample.CelValue.error) = none ∧
    formatValue Sample.expr ⟨some 3⟩ (none : Option Sample.CelValue)
      = ProtobufWkt.Value.nullValue := by
  have h3 := format_none_iff_and_truncates Sample.expr ⟨some 3⟩
    (some (Sample.CelValue.value "hello"))
  have h0 := format_none_iff_and_truncates Sample.expr ⟨some 0⟩
    (some (Sample.CelValue.value "hello"))
  have hn := format_none_iff_and_truncates Sample.expr ⟨none⟩
    (some (Sample.CelValue.value "hello"))
  have he := format_none_iff_and_truncates Sample.expr ⟨some 3⟩ (some Sample.CelValue.error)
  have hz := format_none_iff_and_truncates Sample.expr ⟨some 3⟩
    (none : Option Sample.CelValue)
  exact ⟨by decide, h3.2.2.2 "hel" (by decide), (h0.2.1 _ rfl rfl).2.1 rfl,
    (hn.2.1 _ rfl rfl).2.2 rfl, he.1.2 (Or.inr ⟨_, rfl, rfl⟩),
    hz.2.2.1.2 (hz.1.2 (Or.inl rfl))⟩

end Formatter
end Extensions
end Envoy
